import Mathlib

/-!
Verification of the elasticluster cluster lifecycle engine
(src/elasticluster/cluster.py and its collaborators) against its
natural-language specification.

The embedding is shallow: Python strings are lists of characters, Python
dictionaries are association lists iterated in entry order (the code targets
Python 2, whose dict.items() returns a snapshot list, which is what the
mutating loops in cluster.py rely on), fallible Python code returns Except,
and the external cloud provider of section 6 of the spec is modelled as an
explicit environment (a membership list of live instances together with a
function giving the provider-reported state of each instance at each polling
tick).  Machine integers do not occur: Python integers are unbounded, so Int
and Nat are exact models.
-/

set_option autoImplicit false

namespace Elasticluster

/-- Python strings are modelled as lists of characters. -/
abbrev Str := List Char

/-- Convert a Lean string literal to the character-list model. -/
def str (s : String) : Str := s.data

/-- The Python exceptions that can escape the embedded code paths. -/
inductive PyErr where
  | typeError
  | valueError
  | attributeError
  | keyError
  | indexError
  | timeoutError
  | nodeNotFound
  deriving DecidableEq, Repr

/-- Python membership test on strings: sub in s. -/
def pyIn (sub s : Str) : Bool := decide (sub <:+: s)

/-- Python s.startswith(p). -/
def pyStarts (p s : Str) : Bool := decide (p <+: s)

/-- Worker for pySplit.  The fuel starts at the length of the string being
split, which bounds the number of scanning steps, so the recursion is
structural and the function reduces by evaluation. -/
def splitAux (sep : Str) : Nat → Str → Str → List Str
  | 0, s, acc => [acc.reverse ++ s]
  | fuel + 1, s, acc =>
    if sep ≠ [] ∧ sep <+: s then
      acc.reverse :: splitAux sep fuel (s.drop sep.length) []
    else
      match s with
      | [] => [acc.reverse]
      | c :: t => splitAux sep fuel t (c :: acc)

/-- Python s.split(sep) for a nonempty separator: cut at every left-to-right
non-overlapping occurrence of sep.  (Python raises on an empty separator;
the embedded code never passes one on the paths under study, and we return
the whole string in that case.) -/
def pySplit (sep s : Str) : List Str :=
  if sep = [] then [s] else splitAux sep s.length s []

/-- Python s.replace(pat, ''): remove every left-to-right non-overlapping
occurrence of pat (equivalently, join the pieces of s.split(pat)). -/
def pyReplaceEmpty (pat s : Str) : Str := (pySplit pat s).flatten

/-- Numeric value of a decimal digit character. -/
def charVal (c : Char) : Nat := c.toNat - 48

/-- Decimal digit character for a value below ten. -/
def digitChar (d : Nat) : Char := Char.ofNat (d + 48)

/-- Boolean test used by the model of Python int(): is c a decimal digit? -/
def digitB (c : Char) : Bool := 48 ≤ c.toNat && c.toNat ≤ 57

/-- Value of a most-significant-first decimal digit string. -/
def natOfDigits (s : Str) : Nat := s.foldl (fun a c => 10 * a + charVal c) 0

/-- Least-significant-first decimal digits, by structural recursion on a
fuel bound so that evaluation reduces; equal to Nat.digits 10 (below). -/
def natDigitsAux : Nat → Nat → List Nat
  | 0, _ => []
  | _ + 1, 0 => []
  | fuel + 1, n + 1 => ((n + 1) % 10) :: natDigitsAux fuel ((n + 1) / 10)

theorem natDigitsAux_eq : ∀ (fuel n : Nat), n ≤ fuel → natDigitsAux fuel n = Nat.digits 10 n := by
  intro fuel
  induction fuel with
  | zero =>
    intro n hn
    have : n = 0 := Nat.le_zero.mp hn
    subst this
    simp [natDigitsAux, Nat.digits_zero]
  | succ f ih =>
    intro n hn
    match n with
    | 0 => simp [natDigitsAux, Nat.digits_zero]
    | m + 1 =>
      have hrec : (m + 1) / 10 ≤ f := by
        have := Nat.div_le_self (m + 1) 10
        have h2 : (m + 1) / 10 < m + 1 := Nat.div_lt_self (Nat.succ_pos m) (by norm_num)
        omega
      show ((m + 1) % 10) :: natDigitsAux f ((m + 1) / 10) = _
      rw [ih _ hrec, Nat.digits_def' (by norm_num : 1 < 10) (Nat.succ_pos m)]

/-- Most-significant-first decimal digit string of a natural number
(empty for zero, matching how the zero-padding below fills it up). -/
def natDigits (n : Nat) : Str := ((natDigitsAux n n).map digitChar).reverse

theorem natDigits_eq_digits (n : Nat) :
    natDigits n = ((Nat.digits 10 n).map digitChar).reverse := by
  unfold natDigits
  rw [natDigitsAux_eq n n (le_refl n)]

/-- Python format(n, '03'): decimal digits of n, zero-padded on the left to
at least three characters. -/
def pad3 (n : Nat) : Str :=
  List.replicate (3 - (natDigits n).length) '0' ++ natDigits n

/-- Python format(i, '03') for a possibly negative integer (the sign counts
towards the width of three). -/
def pad3i (i : Int) : Str :=
  if i < 0 then
    '-' :: (List.replicate (2 - (natDigits (-i).toNat).length) '0'
            ++ natDigits (-i).toNat)
  else pad3 i.toNat

/-- Python int(s) restricted to the forms that occur in this code base: an
optional minus sign followed by decimal digits; everything else raises
ValueError.  (Real Python also accepts surrounding whitespace, a plus sign
and, on Python 3, underscore separators; no string handled by cluster.py
uses those forms.) -/
def py_int (s : Str) : Except PyErr Int :=
  match s with
  | [] => .error .valueError
  | c :: rest =>
    if c = '-' then
      if rest ≠ [] ∧ rest.all digitB then .ok (-(natOfDigits rest : Int))
      else .error .valueError
    else
      if (c :: rest).all digitB then .ok ((natOfDigits (c :: rest) : Int))
      else .error .valueError

/-- A lowercase ASCII letter, by code point. -/
def lowerChar (c : Char) : Prop := 97 ≤ c.toNat ∧ c.toNat ≤ 122

instance (c : Char) : Decidable (lowerChar c) := by
  unfold lowerChar; infer_instance

/-- A well-formed group name: nonempty, all lowercase letters.  This is the
shape every group name in the shipped configuration templates has, and the
canonical-naming hypotheses of the theorems below are stated with it. -/
def GroupName (g : Str) : Prop := g ≠ [] ∧ ∀ c ∈ g, lowerChar c

instance (g : Str) : Decidable (GroupName g) := by
  unfold GroupName; infer_instance

theorem lowerChar_not_digit {c : Char} (h : lowerChar c) : digitB c = false := by
  rcases h with ⟨h1, h2⟩
  simp only [digitB, Bool.and_eq_false_iff, decide_eq_false_iff_not, not_le]
  omega

theorem lowerChar_ne_underscore {c : Char} (h : lowerChar c) : c ≠ '_' := by
  rintro rfl
  exact absurd h (by decide)

theorem lowerChar_ne_dash {c : Char} (h : lowerChar c) : c ≠ '-' := by
  rintro rfl
  exact absurd h (by decide)

theorem charVal_digitChar {d : Nat} (h : d < 10) : charVal (digitChar d) = d := by
  interval_cases d <;> rfl

theorem digitB_digitChar {d : Nat} (h : d < 10) : digitB (digitChar d) = true := by
  interval_cases d <;> rfl

theorem natOfDigits_from (s : Str) : ∀ a : Nat,
    s.foldl (fun x c => 10 * x + charVal c) a = a * 10 ^ s.length + natOfDigits s := by
  induction s with
  | nil => intro a; simp [natOfDigits]
  | cons c t ih =>
    intro a
    have h1 : natOfDigits (c :: t) = charVal c * 10 ^ t.length + natOfDigits t := by
      simp only [natOfDigits, List.foldl_cons]
      rw [ih (10 * 0 + charVal c)]
      norm_num
      rfl
    simp only [List.foldl_cons, List.length_cons]
    rw [ih (10 * a + charVal c), h1]
    ring

theorem natOfDigits_append (a b : Str) :
    natOfDigits (a ++ b) = natOfDigits a * 10 ^ b.length + natOfDigits b := by
  simp only [natOfDigits, List.foldl_append]
  rw [natOfDigits_from b (List.foldl (fun x c => 10 * x + charVal c) 0 a)]
  rfl

theorem natOfDigits_map_rev (L : List Nat) (hL : ∀ d ∈ L, d < 10) :
    natOfDigits ((L.map digitChar).reverse) = Nat.ofDigits 10 L := by
  induction L with
  | nil => simp [natOfDigits, Nat.ofDigits]
  | cons d ds ih =>
    have hd : d < 10 := hL d (by simp)
    have hds : ∀ x ∈ ds, x < 10 := fun x hx => hL x (by simp [hx])
    simp only [List.map_cons, List.reverse_cons]
    rw [natOfDigits_append, ih hds, Nat.ofDigits_cons]
    simp [natOfDigits, charVal_digitChar hd]
    ring

theorem natOfDigits_natDigits (n : Nat) : natOfDigits (natDigits n) = n := by
  rw [natDigits_eq_digits]
  rw [natOfDigits_map_rev _ (fun d hd => Nat.digits_lt_base (by norm_num) hd)]
  exact Nat.ofDigits_digits 10 n

theorem natOfDigits_replicate_zero (k : Nat) (t : Str) :
    natOfDigits (List.replicate k '0' ++ t) = natOfDigits t := by
  rw [natOfDigits_append]
  have h0 : natOfDigits (List.replicate k '0') = 0 := by
    induction k with
    | zero => rfl
    | succ m ih =>
      have : List.replicate (m + 1) '0' = List.replicate m '0' ++ ['0'] := by
        rw [List.replicate_succ']
      rw [this, natOfDigits_append, ih]
      rfl
  rw [h0]
  simp

theorem natOfDigits_pad3 (n : Nat) : natOfDigits (pad3 n) = n := by
  unfold pad3
  rw [natOfDigits_replicate_zero, natOfDigits_natDigits]

theorem natDigits_all_digit (n : Nat) : (natDigits n).all digitB = true := by
  rw [natDigits_eq_digits]
  simp only [List.all_eq_true]
  intro c hc
  simp only [List.mem_reverse, List.mem_map] at hc
  obtain ⟨d, hd, rfl⟩ := hc
  exact digitB_digitChar (Nat.digits_lt_base (by norm_num) hd)

theorem pad3_all_digit (n : Nat) : (pad3 n).all digitB = true := by
  simp only [pad3, List.all_append, Bool.and_eq_true]
  refine ⟨?_, natDigits_all_digit n⟩
  simp only [List.all_eq_true]
  intro c hc
  rw [List.eq_of_mem_replicate hc]
  rfl

theorem pad3_ne_nil (n : Nat) : pad3 n ≠ [] := by
  unfold pad3
  intro h
  rcases List.append_eq_nil.mp h with ⟨h1, h2⟩
  have l1 := congrArg List.length h1
  have l2 := congrArg List.length h2
  simp only [List.length_replicate, List.length_nil] at l1 l2
  omega

theorem py_int_all_digit {s : Str} (hne : s ≠ []) (hdig : s.all digitB = true) :
    py_int s = .ok ((natOfDigits s : Nat) : Int) := by
  match s with
  | [] => exact absurd rfl hne
  | c :: rest =>
    have hc : digitB c = true := by
      simp only [List.all_cons, Bool.and_eq_true] at hdig
      exact hdig.1
    have hcne : c ≠ '-' := by
      rintro rfl
      exact absurd hc (by decide)
    simp [py_int, hcne, hdig]

theorem py_int_pad3 (n : Nat) : py_int (pad3 n) = .ok ((n : Nat) : Int) := by
  rw [py_int_all_digit (pad3_ne_nil n) (pad3_all_digit n), natOfDigits_pad3]

theorem pad3_inj {m n : Nat} (h : pad3 m = pad3 n) : m = n := by
  have := congrArg natOfDigits h
  rwa [natOfDigits_pad3, natOfDigits_pad3] at this

theorem cons_prefix_split {a b : Char} {l₁ l₂ : List Char} (h : a :: l₁ <+: b :: l₂) :
    a = b ∧ l₁ <+: l₂ := by
  obtain ⟨t, ht⟩ := h
  simp only [List.cons_append] at ht
  injection ht with h1 h2
  exact ⟨h1, ⟨t, h2⟩⟩

theorem splitAux_no_occ (sep : Str) (_hsep : sep ≠ []) :
    ∀ (fuel : Nat) (s acc : Str), ¬ sep <:+: s →
      splitAux sep fuel s acc = [acc.reverse ++ s] := by
  intro fuel
  induction fuel with
  | zero => intro s acc _; rfl
  | succ f ih =>
    intro s acc hocc
    have hnp : ¬ (sep ≠ [] ∧ sep <+: s) := fun hp => hocc hp.2.isInfix
    simp only [splitAux, if_neg hnp]
    cases s with
    | nil => simp
    | cons c t =>
      have hocct : ¬ sep <:+: t := fun hi => hocc (hi.trans (List.suffix_cons c t).isInfix)
      show splitAux sep f t (c :: acc) = _
      rw [ih t (c :: acc) hocct]
      simp

theorem pySplit_no_occ {sep s : Str} (hsep : sep ≠ []) (h : ¬ sep <:+: s) :
    pySplit sep s = [s] := by
  simp only [pySplit, if_neg hsep]
  rw [splitAux_no_occ sep hsep s.length s [] h]
  rfl

theorem prefix_shift {sep a b : Str} (hsep : sep ≠ []) (ha : a ≠ [])
    (h : sep <+: a ++ sep ++ b) : sep <:+: (a ++ sep.dropLast) := by
  have hlen : sep.length ≤ (a ++ sep.dropLast).length := by
    rw [List.length_append, List.length_dropLast]
    have h1 : 1 ≤ a.length := List.length_pos.mpr ha
    have h2 : 1 ≤ sep.length := List.length_pos.mpr hsep
    omega
  have heq : a ++ sep ++ b = (a ++ sep.dropLast) ++ ([sep.getLast hsep] ++ b) := by
    conv_lhs => rw [← List.dropLast_append_getLast hsep]
    simp [List.append_assoc]
  have htake := List.prefix_iff_eq_take.mp h
  rw [heq, List.take_append_of_le_length hlen] at htake
  have hpre := List.take_prefix sep.length (a ++ sep.dropLast)
  rw [← htake] at hpre
  exact hpre.isInfix

theorem splitAux_cut (sep : Str) (hsep : sep ≠ []) :
    ∀ (fuel : Nat) (a b acc : Str),
      ¬ sep <:+: (a ++ sep.dropLast) → ¬ sep <:+: b →
      splitAux sep (fuel + 1 + a.length) (a ++ sep ++ b) acc = [acc.reverse ++ a, b] := by
  intro fuel a
  induction a generalizing fuel with
  | nil =>
    intro b acc _ hb
    simp only [List.nil_append, List.length_nil, Nat.add_zero]
    have hp : sep ≠ [] ∧ sep <+: sep ++ b := ⟨hsep, List.prefix_append sep b⟩
    simp only [splitAux, if_pos hp]
    rw [List.drop_left]
    rw [splitAux_no_occ sep hsep fuel b [] hb]
    simp
  | cons c a' ih =>
    intro b acc hocc hb
    have hnp : ¬ (sep ≠ [] ∧ sep <+: (c :: a') ++ sep ++ b) := by
      rintro ⟨_, hp⟩
      exact hocc (prefix_shift hsep (by simp) hp)
    have hstep : (fuel + 1 + (c :: a').length) = (fuel + 1 + a'.length) + 1 := by
      simp only [List.length_cons]
      omega
    rw [hstep]
    simp only [splitAux, if_neg hnp]
    have hocc' : ¬ sep <:+: (a' ++ sep.dropLast) := by
      intro hi
      exact hocc (hi.trans (List.suffix_cons c _).isInfix)
    have hrec := ih fuel b (c :: acc) hocc' hb
    show splitAux sep (fuel + 1 + a'.length) (a' ++ sep ++ b) (c :: acc) = _
    rw [hrec]
    simp

theorem pySplit_cut {sep a b : Str} (hsep : sep ≠ [])
    (h1 : ¬ sep <:+: (a ++ sep.dropLast)) (h2 : ¬ sep <:+: b) :
    pySplit sep (a ++ sep ++ b) = [a, b] := by
  simp only [pySplit, if_neg hsep]
  have hslen : 1 ≤ sep.length := List.length_pos.mpr hsep
  have hfuel : (a ++ sep ++ b).length = (sep.length + b.length - 1) + 1 + a.length := by
    simp only [List.length_append]
    omega
  rw [hfuel, splitAux_cut sep hsep _ a b [] h1 h2]
  simp

theorem not_infix_of_exists_not {l s : Str} (P : Char → Bool)
    (hl : ∃ c ∈ l, P c = false) (hs : s.all P = true) : ¬ l <:+: s := by
  intro h
  obtain ⟨c, hc, hPc⟩ := hl
  have hmem := h.subset hc
  simp only [List.all_eq_true] at hs
  rw [hs c hmem] at hPc
  exact Bool.true_eq_false.mp hPc

theorem lower_underscore_align :
    ∀ (a b u w : Str), (∀ c ∈ a, lowerChar c) → (∀ c ∈ b, lowerChar c) →
      (a ++ '_' :: u) <+: (b ++ '_' :: w) → a = b := by
  intro a
  induction a with
  | nil =>
    intro b u w _ hb h
    cases b with
    | nil => rfl
    | cons d b' =>
      exfalso
      simp only [List.nil_append, List.cons_append] at h
      obtain ⟨h1, _⟩ := cons_prefix_split h
      exact lowerChar_ne_underscore (hb d (by simp)) h1.symm
  | cons c a' ih =>
    intro b u w ha hb h
    cases b with
    | nil =>
      exfalso
      simp only [List.cons_append, List.nil_append] at h
      obtain ⟨h1, _⟩ := cons_prefix_split h
      exact lowerChar_ne_underscore (ha c (by simp)) h1
    | cons d b' =>
      simp only [List.cons_append] at h
      obtain ⟨h1, h2⟩ := cons_prefix_split h
      have := ih b' u w (fun x hx => ha x (by simp [hx])) (fun x hx => hb x (by simp [hx])) h2
      rw [h1, this]

/-- Provider-reported lifecycle state of an instance (the libcloud NodeState
values cluster.py compares against; only RUNNING is consulted). -/
inductive NodeSt where
  | running
  | pending
  | terminated
  | stopped
  | unknown
  deriving DecidableEq, Repr

/-- A libcloud compute node as cluster.py reads and writes it: the cloud id,
the derived name, the provider-reported state, the address lists and the
remaining attributes serialised by Cluster.__dump. -/
structure PNode where
  id : Str
  name : Str
  state : NodeSt
  public_ips : List Str
  private_ips : List Str
  size : Option Str := none
  created_at : Option Str := none
  image : Option Str := none
  extra : Option Str := none
  deriving DecidableEq, Repr

/-- The three storage formats Cluster.__dump and Cluster.__load branch on. -/
inductive StorageType where
  | yaml
  | json
  | pickle
  deriving DecidableEq, Repr

/-- One node record of the persisted document (Cluster.__dump lines 150-159). -/
structure NodeRecord where
  id : Str
  name : Str
  state : NodeSt
  public_ips : List Str
  private_ips : List Str
  size : Option Str
  created_at : Option Str
  image : Option Str
  extra : Option Str
  deriving DecidableEq, Repr

/-- The persisted document (Cluster.__dump lines 144-160). -/
structure StorageDoc where
  template : Str
  name : Str
  options : List (Str × Str)
  nodes : List NodeRecord
  deriving DecidableEq, Repr

/-- Contents of the cluster's storage file: missing, truncated-and-empty
(what open-for-write leaves when nothing is written), or a serialised
document. -/
inductive StorageContent where
  | absent
  | empty
  | yamlDoc (d : StorageDoc)
  deriving DecidableEq, Repr

/-- The in-memory fields of a Cluster object that the lifecycle operations
read and write (cluster.py lines 51-71).  The cloud, login and setup
collaborator handles are modelled as part of the environment; the
group-specific option merging of add (lines 212-214) only feeds the
external provider and is not represented. -/
structure ClusterSt where
  template : Str
  name : Str
  storage_type : StorageType
  options : List (Str × Str)
  nodes : List PNode
  deriving DecidableEq, Repr

/-- Provider environment: at polling tick t, cloudEnv t nm is none when the
provider's list_nodes omits the instance named nm, and some st when it
lists it with provider-reported state st (spec section 6: listNodes). -/
abbrev CloudEnv := Nat → Str → Option NodeSt

/-- Full system state threaded through the embedded operations: the cluster
object, the provider-side membership list of created-and-not-destroyed
instances, the log of destroyed instance names, the log of node names
issued by start_instance, the storage file and the polling tick. -/
structure Sys where
  c : ClusterSt
  live : List PNode
  stopped : List Str
  created : List Str
  storage : StorageContent
  t : Nat
  deriving DecidableEq, Repr

/-- The provider's list_nodes at the current tick: every
created-and-not-destroyed instance the environment lists, carrying its
current provider-reported state. -/
def list_nodes (env : CloudEnv) (s : Sys) : List PNode :=
  s.live.filterMap (fun n => (env s.t n.name).map (fun st => { n with state := st }))

/-- Core of Cluster.__update_node_states (lines 101-113): the inventory is
replaced by the provider-listed nodes whose name is already in the
inventory, and every node of the previous inventory whose name is no
longer matched is warned about.  Returns the new inventory and the list of
warned-about nodes. -/
def update_node_states_core (liveNodes nodes : List PNode) : List PNode × List PNode :=
  let newNodes := liveNodes.filter (fun pn => (nodes.map PNode.name).contains pn.name)
  (newNodes, nodes.filter (fun n => !((newNodes.map PNode.name).contains n.name)))

/-- Cluster.__update_node_states acting on the system state (the guard on
line 102 holds whenever a cloud provider is configured, which every
operation below needs anyway). -/
def upd (env : CloudEnv) (s : Sys) : Sys :=
  { s with c := { s.c with nodes := (update_node_states_core (list_nodes env s) s.c.nodes).1 } }

def mkNodeRecord (n : PNode) : NodeRecord :=
  ⟨n.id, n.name, n.state, n.public_ips, n.private_ips, n.size, n.created_at, n.image, n.extra⟩

def mkDoc (c : ClusterSt) : StorageDoc :=
  ⟨c.template, c.name, c.options, c.nodes.map mkNodeRecord⟩

/-- Cluster.__dump (lines 142-166).  The file is opened for writing, which
truncates it, before anything is serialised.  The yaml branch writes the
document.  The json branch calls json.dumps(storage_buffer, sf): dumps
does not write to a file, so under the Python 2 the package declares
support for, the returned string is discarded and the truncated file stays
empty (under Python 3 the call raises TypeError, since the file object is
passed to a keyword-only position).  The pickle branch calls
pickle.dumps(storage_buffer, sf), which makes the file object the pickle
protocol and raises (ValueError on Python 2, TypeError on Python 3).
state_update refreshes the inventory before the node list is serialised
(lines 147-148). -/
def cluster_dump (env : CloudEnv) (state_update : Bool) (s : Sys) : Except PyErr Sys :=
  let s := if state_update then upd env s else s
  match s.c.storage_type with
  | .yaml => .ok { s with storage := .yamlDoc (mkDoc s.c) }
  | .json => .ok { s with storage := .empty }
  | .pickle => .error .valueError

/-- A node as Cluster.__load reconstructs it (lines 130-132): the first five
positional constructor arguments (id, name, state, public_ips,
private_ips) land on the like-named libcloud Node parameters; the trailing
four are passed to external libcloud parameters (driver onwards) whose
binding is outside this repository, so the model leaves the corresponding
fields unset rather than asserting a placement. -/
def loadNodeRecord (r : NodeRecord) : PNode :=
  { id := r.id, name := r.name, state := r.state,
    public_ips := r.public_ips, private_ips := r.private_ips }

/-- Cluster.__load (lines 115-140) for documents in the modern list shape,
the only shape Cluster.__dump produces (the legacy group-keyed fallback of
lines 133-138 is reachable only from hand-written legacy files).  The yaml
branch parses the document; loading an empty file yields None, whose
attribute access raises; the json and pickle branches hand the open file
object to json.loads and pickle.loads, which raise (AttributeError and
TypeError under Python 2) without reading the document.  Options are taken
from the file only when the in-memory options are empty (line 125). -/
def cluster_load (env : CloudEnv) (state_update : Bool) (s : Sys) : Except PyErr Sys :=
  match s.c.storage_type with
  | .yaml =>
    match s.storage with
    | .yamlDoc d =>
      let c := { s.c with template := d.template, name := d.name,
                          options := if s.c.options = [] then d.options else s.c.options,
                          nodes := d.nodes.map loadNodeRecord }
      let s := { s with c := c }
      .ok (if state_update then upd env s else s)
    | _ => .error .attributeError
  | .json => .error .attributeError
  | .pickle => .error .typeError

/-- Node-name formatting used by add (lines 215-218) and remove (lines
249-252): '-'.join of the cluster name and the group name followed by the
zero-padded index. -/
def format_node_name (cname g : Str) (x : Int) : Str :=
  cname ++ ('-' :: (g ++ pad3i x))

/-- The cluster-name part of a node name: the template when it equals the
cluster name, the cluster name otherwise (both add and remove branch this
way; the two branches always produce the same string). -/
def effective_name (c : ClusterSt) : Str :=
  if c.template = c.name then c.template else c.name

theorem effective_name_eq (c : ClusterSt) : effective_name c = c.name := by
  unfold effective_name
  split <;> simp_all

/-- Loop body of Cluster.__last_allocated_node_index (lines 199-205): for
every node whose name is truthy and contains the group name as a
substring, parse int(name.split(node_type)[1]) and keep the maximum. -/
def lanAux (g : Str) : List PNode → Int → Except PyErr Int
  | [], acc => .ok acc
  | n :: rest, acc =>
    if n.name ≠ [] ∧ pyIn g n.name then
      match (pySplit g n.name).get? 1 with
      | none => .error .indexError
      | some part =>
        match py_int part with
        | .error e => .error e
        | .ok ni => lanAux g rest (if acc < ni then ni else acc)
    else lanAux g rest acc

/-- Cluster.__last_allocated_node_index (lines 199-205). -/
def last_allocated_node_index (nodes : List PNode) (g : Str) : Except PyErr Int :=
  lanAux g nodes 0

/-- Python range(start, start + cnt) as a list of integers (empty when cnt
is not positive). -/
def intRangeCount (start cnt : Int) : List Int :=
  (List.range cnt.toNat).map (fun i => start + Int.ofNat i)

/-- Python range(start, start - cnt, -1) as a list of integers. -/
def intRangeDown (start cnt : Int) : List Int :=
  (List.range cnt.toNat).map (fun i => start - Int.ofNat i)

/-- Model of the provider start_instance collaborator (spec section 6,
provider implementations under providers/): create an instance carrying
the requested node_name and return it.  Instance ids are opaque and
cloud-assigned; the model uses the name, which keeps ids unique exactly
when names are.  The returned state is the provider-reported state at the
current tick. -/
def start_instance (env : CloudEnv) (s : Sys) (node_name : Str) : Sys × PNode :=
  let node : PNode := { id := node_name, name := node_name,
                        state := (env s.t node_name).getD .pending,
                        public_ips := [], private_ips := [] }
  ({ s with live := s.live ++ [node], created := s.created ++ [node_name] }, node)

/-- Model of the provider stop_instance collaborator (cloud_provider.py
lines 96-100): locate the live instance by id and destroy it; a miss is a
no-op. -/
def stop_instance (s : Sys) (node : PNode) : Sys :=
  if (s.live.map PNode.id).contains node.id then
    { s with live := s.live.eraseP (fun n => n.id == node.id),
             stopped := s.stopped ++ [node.name] }
  else s

/-- Cluster.remove_by_name (lines 254-264): refresh the inventory, locate
the node by name (a miss is logged and the method returns without
persisting), stop the instance, evict it from the inventory
(list.remove, which drops the first equal element) and persist without a
further state refresh. -/
def remove_by_name (env : CloudEnv) (s : Sys) (name : Str) : Except PyErr Sys :=
  let s := upd env s
  match s.c.nodes.find? (fun n => n.name == name) with
  | none => .ok s
  | some node =>
    let s := stop_instance s node
    let s := { s with c := { s.c with nodes := s.c.nodes.eraseP (fun n => n == node) } }
    cluster_dump env false s

/-- Cluster.node_types (lines 168-171): every option key containing the
substring 'nodes' yields the pair (key.split('_')[0], int(value)); the
node-list component of the yielded triple is not consumed by start. -/
def node_types : List (Str × Str) → Except PyErr (List (Str × Int))
  | [] => .ok []
  | (k, v) :: rest =>
    if pyIn (str ("nodes")) k then
      match py_int v with
      | .error e => .error e
      | .ok iv =>
        match node_types rest with
        | .error e => .error e
        | .ok r => .ok (((pySplit ['_'] k).headD [], iv) :: r)
    else node_types rest

/-- Polling loop of add-with-wait (lines 222-236): refresh the inventory,
look the new node up by name (raising NodeNotFound when it has vanished),
finish when it reports running, otherwise sleep and retry.  The fuel is
the number of sleeps the startup deadline admits; returns true when the
deadline expired (the TimeoutError of the timeout guard, delivered at the
sleep point). -/
def waitLoop (env : CloudEnv) (nm : Str) : Nat → Sys → Except PyErr (Sys × Bool)
  | fuel, s =>
    let s := upd env s
    match s.c.nodes.find? (fun n => n.name == nm) with
    | none => .error .nodeNotFound
    | some n =>
      if n.state = .running then .ok (s, false)
      else
        match fuel with
        | 0 => .ok (s, true)
        | f + 1 => waitLoop env nm f { s with t := s.t + 1 }

/-- One iteration of the creation loop of Cluster.add (lines 210-243) for
index x: create the instance, append it to the inventory and, when wait is
set, poll it; on deadline expiry the handler of lines 237-243 destroys the
node when it is still in the inventory and raises NodeNotFound
otherwise. -/
def add_one (env : CloudEnv) (fuel : Nat) (wait : Bool) (g : Str) (s : Sys) (x : Int) :
    Except PyErr Sys :=
  let nm := format_node_name (effective_name s.c) g x
  let sn := start_instance env s nm
  let s := { sn.1 with c := { sn.1.c with nodes := sn.1.c.nodes ++ [sn.2] } }
  if wait then
    match waitLoop env nm fuel s with
    | .error e => .error e
    | .ok (s, false) => .ok s
    | .ok (s, true) =>
      match s.c.nodes.find? (fun n => n.name == nm) with
      | some n => remove_by_name env s n.name
      | none => .error .nodeNotFound
  else .ok s

def add_loop (env : CloudEnv) (fuel : Nat) (wait : Bool) (g : Str) :
    List Int → Sys → Except PyErr Sys
  | [], s => .ok s
  | x :: xs, s =>
    match add_one env fuel wait g s x with
    | .error e => .error e
    | .ok s => add_loop env fuel wait g xs s

/-- Cluster.add (lines 207-244): allocate the next indices from the current
inventory, create one node per index (waiting on each when asked to), then
persist with a state refresh. -/
def cluster_add (env : CloudEnv) (fuel : Nat) (s : Sys) (g : Str) (count : Int)
    (wait : Bool) : Except PyErr Sys :=
  match last_allocated_node_index s.c.nodes g with
  | .error e => .error e
  | .ok last =>
    match add_loop env fuel wait g (intRangeCount (last + 1) count) s with
    | .error e => .error e
    | .ok s => cluster_dump env true s

def remove_loop (env : CloudEnv) (g : Str) : List Int → Sys → Except PyErr Sys
  | [], s => .ok s
  | x :: xs, s =>
    match remove_by_name env s (format_node_name (effective_name s.c) g x) with
    | .error e => .error e
    | .ok s => remove_loop env g xs s

/-- Cluster.remove (lines 246-252): remove the count highest allocated
indices of the group, by name, highest first. -/
def cluster_remove (env : CloudEnv) (s : Sys) (g : Str) (count : Int) :
    Except PyErr Sys :=
  match last_allocated_node_index s.c.nodes g with
  | .error e => .error e
  | .ok last => remove_loop env g (intRangeDown last count) s

/-- The steady-state predicate of the start polling loop (line 179). -/
def all_running (s : Sys) : Bool :=
  (s.c.nodes.filter (fun n => n.state == NodeSt.running)).length == s.c.nodes.length

/-- The polling loop of Cluster.start (lines 178-183) under the timeout
guard modelled from the spec's Polling and Timeout Engine (section 4.3;
elasticluster.utils.timeout itself is not part of the sources): check the
predicate, refresh the inventory and sleep otherwise; the fuel is the
number of sleeps the deadline admits, and true in the result means the
deadline expired. -/
def pollAll (env : CloudEnv) : Nat → Sys → Sys × Bool
  | fuel, s =>
    if all_running s then (s, false)
    else
      match fuel with
      | 0 => (s, true)
      | f + 1 =>
        let s := upd env s
        pollAll env f { s with t := s.t + 1 }

def rollback_loop (env : CloudEnv) : List Str → Sys → Except PyErr Sys
  | [], s => .ok s
  | nm :: rest, s =>
    match remove_by_name env s nm with
    | .error e => .error e
    | .ok s => rollback_loop env rest s

def start_add_phase (env : CloudEnv) : List (Str × Int) → Sys → Except PyErr Sys
  | [], s => .ok s
  | (g, amount) :: rest, s =>
    match cluster_add env 0 s g amount false with
    | .error e => .error e
    | .ok s => start_add_phase env rest s

/-- Cluster.start (lines 173-189): create every requested node group, poll
until every inventory node reports running or the deadline expires, and on
expiry remove every node of the inventory snapshot taken when the handler
runs (the first remove_by_name rebinds self.nodes to a fresh list inside
__update_node_states, so the for-loop iterator, bound to the old list
object, still visits every snapshot node); finally persist. -/
def cluster_start (env : CloudEnv) (fuel : Nat) (s : Sys) : Except PyErr Sys :=
  match node_types s.c.options with
  | .error e => .error e
  | .ok nts =>
    match start_add_phase env nts s with
    | .error e => .error e
    | .ok s =>
      match pollAll env fuel s with
      | (s, false) => cluster_dump env true s
      | (s, true) =>
        match rollback_loop env (s.c.nodes.map PNode.name) s with
        | .error e => .error e
        | .ok s => cluster_dump env true s

/-- The indices Cluster.add issues for a batch: the range expression of line
210, range(node_index + 1, node_index + count + 1), over the allocator's
result. -/
def add_issued (nodes : List PNode) (g : Str) (count : Int) : Except PyErr (List Int) :=
  match last_allocated_node_index nodes g with
  | .error e => .error e
  | .ok last => .ok (intRangeCount (last + 1) count)

/-- Group membership as the specification defines it (section 3): the node
name has the form cluster-group followed by a nonempty digit index. -/
def spec_in_group (cname g : Str) (n : PNode) : Bool :=
  decide ((cname ++ '-' :: g) <+: n.name) &&
    (n.name.drop (cname.length + 1 + g.length)).all digitB &&
    !(n.name.drop (cname.length + 1 + g.length)).isEmpty

/-- Canonical-form hypothesis on an inventory entry: the node either carries
the canonical name of the group with the recorded index, or a name that
does not contain the group name as a substring. -/
def canonEntry (cname g : Str) (e : PNode × Option Nat) : Bool :=
  match e.2 with
  | some x => e.1.name == format_node_name cname g (x : Int)
  | none => !(pyIn g e.1.name)

theorem format_eq_parts (cname g : Str) (n : Nat) :
    format_node_name cname g (n : Int) = (cname ++ ['-']) ++ g ++ pad3 n := by
  unfold format_node_name pad3i
  rw [if_neg (by omega : ¬ ((n : Int) < 0))]
  simp [List.append_assoc]

theorem groupName_not_infix_digits {g : Str} (hg : GroupName g) (n : Nat) :
    ¬ g <:+: pad3 n := by
  obtain ⟨hne, hlow⟩ := hg
  match g, hne with
  | c :: g', _ =>
    exact not_infix_of_exists_not digitB
      ⟨c, by simp, lowerChar_not_digit (hlow c (by simp))⟩ (pad3_all_digit n)

theorem format_ne_nil (cname g : Str) (x : Int) : format_node_name cname g x ≠ [] := by
  unfold format_node_name
  intro h
  rcases List.append_eq_nil.mp h with ⟨_, h2⟩
  exact List.cons_ne_nil _ _ h2

theorem g_infix_format (cname g : Str) (n : Nat) :
    g <:+: format_node_name cname g (n : Int) := by
  rw [format_eq_parts]
  exact ⟨cname ++ ['-'], pad3 n, by simp [List.append_assoc]⟩

theorem pySplit_format {cname g : Str} (hg : GroupName g)
    (hocc : ¬ g <:+: ((cname ++ ['-']) ++ g.dropLast)) (n : Nat) :
    pySplit g (format_node_name cname g (n : Int)) = [cname ++ ['-'], pad3 n] := by
  rw [format_eq_parts]
  exact pySplit_cut hg.1 hocc (groupName_not_infix_digits hg n)

/-- The running maximum the allocator loop computes, as a function of the
group's recorded indices. -/
def maxNatList (l : List Nat) (acc : Int) : Int :=
  l.foldl (fun a x => max a (Int.ofNat x)) acc

theorem lanAux_canon {cname g : Str} (hg : GroupName g)
    (hocc : ¬ g <:+: ((cname ++ ['-']) ++ g.dropLast)) :
    ∀ (entries : List (PNode × Option Nat)),
      (∀ e ∈ entries, canonEntry cname g e = true) →
      ∀ acc : Int,
        lanAux g (entries.map Prod.fst) acc
          = .ok (maxNatList (entries.filterMap Prod.snd) acc) := by
  intro entries
  induction entries with
  | nil => intro _ acc; rfl
  | cons e rest ih =>
    intro hent acc
    have he : canonEntry cname g e = true := hent e (by simp)
    have hrest : ∀ e' ∈ rest, canonEntry cname g e' = true := fun e' h' => hent e' (by simp [h'])
    match hx : e.2 with
    | some x =>
      have hname : e.1.name = format_node_name cname g (x : Int) := by
        unfold canonEntry at he
        rw [hx] at he
        exact eq_of_beq he
      have hcond : e.1.name ≠ [] ∧ pyIn g e.1.name := by
        constructor
        · rw [hname]; exact format_ne_nil cname g (x : Int)
        · rw [hname]
          exact decide_eq_true (g_infix_format cname g x)
      simp only [List.map_cons, lanAux, if_pos hcond]
      rw [hname, pySplit_format hg hocc x]
      simp only [List.get?]
      rw [py_int_pad3 x]
      show lanAux g (List.map Prod.fst rest) (if acc < ((x : Nat) : Int) then ((x : Nat) : Int) else acc) = _
      have hmax : (if acc < (x : Int) then (x : Int) else acc) = max acc (x : Int) := by
        by_cases hlt : acc < (x : Int)
        · rw [if_pos hlt, max_eq_right hlt.le]
        · rw [if_neg hlt, max_eq_left (not_lt.mp hlt)]
      rw [hmax, ih hrest]
      simp [maxNatList, List.filterMap_cons, hx]
    | none =>
      have hni : ¬ g <:+: e.1.name := by
        unfold canonEntry at he
        rw [hx] at he
        simp only [Bool.not_eq_eq_eq_not, Bool.not_true] at he
        exact of_decide_eq_false he
      have hcond : ¬ (e.1.name ≠ [] ∧ pyIn g e.1.name) := by
        rintro ⟨_, hin⟩
        exact hni (of_decide_eq_true hin)
      simp only [List.map_cons, lanAux, if_neg hcond]
      rw [ih hrest]
      simp [maxNatList, List.filterMap_cons, hx]

/-- C2, amended: Cluster.__last_allocated_node_index matches group
membership by substring containment of the group name in the node name.
For every inventory in canonical form — each node either carries a
canonical cluster-group-index name of this group, or a name that does not
contain the group string — the allocator returns the maximum existing
index of the group (zero for an empty group), and add issues its count
indices starting at max + 1, hence starting at index 1 when the group
currently has no nodes.  (As stated, the claim is false: a node of a
different group whose name contains the group string, such as gpuworker
versus worker, is counted into the maximum; see the counterexample.) -/
theorem C2_allocator (cname g : Str) (entries : List (PNode × Option Nat))
    (hg : GroupName g)
    (hocc : ¬ g <:+: ((cname ++ ['-']) ++ g.dropLast))
    (hent : ∀ e ∈ entries, canonEntry cname g e = true) :
    last_allocated_node_index (entries.map Prod.fst) g
        = .ok (maxNatList (entries.filterMap Prod.snd) 0)
    ∧ (∀ count : Int,
        add_issued (entries.map Prod.fst) g count
          = .ok (intRangeCount (maxNatList (entries.filterMap Prod.snd) 0 + 1) count))
    ∧ (entries.filterMap Prod.snd = [] →
        ∀ count : Int,
          add_issued (entries.map Prod.fst) g count = .ok (intRangeCount 1 count)) := by
  have h1 := lanAux_canon hg hocc entries hent 0
  have h2 : ∀ count : Int,
      add_issued (entries.map Prod.fst) g count
        = .ok (intRangeCount (maxNatList (entries.filterMap Prod.snd) 0 + 1) count) := by
    intro count
    unfold add_issued
    rw [show last_allocated_node_index (entries.map Prod.fst) g
        = Except.ok (maxNatList (entries.filterMap Prod.snd) 0) from h1]
  refine ⟨h1, h2, ?_⟩
  intro hemp count
  have h3 := h2 count
  rw [hemp] at h3
  simpa [maxNatList] using h3

def c2wNode1 : PNode :=
  { id := str ("n1"), name := str ("c-worker001"), state := .running,
    public_ips := [], private_ips := [] }

def c2wNode3 : PNode :=
  { id := str ("n3"), name := str ("c-worker003"), state := .running,
    public_ips := [], private_ips := [] }

def c2wNodeDb : PNode :=
  { id := str ("nd"), name := str ("c-db002"), state := .running,
    public_ips := [], private_ips := [] }

def c2wEntries : List (PNode × Option Nat) :=
  [(c2wNode1, some 1), (c2wNode3, some 3), (c2wNodeDb, none)]

/-- Witness for C2: on a concrete canonical inventory holding worker indices
1 and 3 plus a db node, the allocator returns 3 and a batch of two new
nodes gets indices 4 and 5. -/
theorem C2_allocator_witness :
    (GroupName (str ("worker"))
      ∧ ¬ (str ("worker")) <:+: (((str ("c")) ++ ['-']) ++ (str ("worker")).dropLast)
      ∧ (∀ e ∈ c2wEntries, canonEntry (str ("c")) (str ("worker")) e = true))
    ∧ last_allocated_node_index (c2wEntries.map Prod.fst) (str ("worker")) = .ok 3
    ∧ add_issued (c2wEntries.map Prod.fst) (str ("worker")) 2 = .ok [4, 5] := by
  have hg : GroupName (str ("worker")) := by decide
  have hocc : ¬ (str ("worker")) <:+: (((str ("c")) ++ ['-']) ++ (str ("worker")).dropLast) := by
    decide
  have hent : ∀ e ∈ c2wEntries, canonEntry (str ("c")) (str ("worker")) e = true := by decide
  have h := C2_allocator (str ("c")) (str ("worker")) c2wEntries hg hocc hent
  refine ⟨⟨hg, hocc, hent⟩, ?_, ?_⟩
  · rw [h.1]; rfl
  · rw [h.2.1 2]; rfl

def c2xNode : PNode :=
  { id := str ("n"), name := str ("c-gpuworker005"), state := .running,
    public_ips := [], private_ips := [] }

/-- Counterexample to C2 as stated: the inventory holds a single node of
group gpuworker, so group worker has no nodes and the claim requires the
next worker index to be 1; the substring-matching allocator parses 5 out
of the gpuworker name and add issues index 6 for group worker instead. -/
theorem C2_counterexample :
    spec_in_group (str ("c")) (str ("worker")) c2xNode = false
    ∧ spec_in_group (str ("c")) (str ("gpuworker")) c2xNode = true
    ∧ last_allocated_node_index [c2xNode] (str ("worker")) = .ok 5
    ∧ add_issued [c2xNode] (str ("worker")) 1 = .ok [6]
    ∧ add_issued [c2xNode] (str ("worker")) 1 ≠ .ok [1] := by
  refine ⟨by decide, by decide, by rfl, by rfl, ?_⟩
  intro h
  rw [show add_issued [c2xNode] (str ("worker")) 1 = .ok [6] from rfl] at h
  simp at h

theorem foldl_max_le_acc : ∀ (l : List Nat) (acc : Int), acc ≤ maxNatList l acc := by
  intro l
  induction l with
  | nil => intro acc; exact le_rfl
  | cons y t ih =>
    intro acc
    show acc ≤ maxNatList t (max acc (Int.ofNat y))
    exact le_trans (le_max_left acc (Int.ofNat y)) (ih (max acc (Int.ofNat y)))

theorem mem_le_foldl_max : ∀ (l : List Nat) (acc : Int) (j : Nat), j ∈ l →
    Int.ofNat j ≤ maxNatList l acc := by
  intro l
  induction l with
  | nil => intro acc j h; exact absurd h (List.not_mem_nil j)
  | cons y t ih =>
    intro acc j h
    rcases List.mem_cons.mp h with rfl | hm
    · exact le_trans (le_max_right acc (Int.ofNat j)) (foldl_max_le_acc t _)
    · exact ih _ j hm

theorem mem_intRangeCount {s c x : Int} (h : x ∈ intRangeCount s c) : s ≤ x := by
  simp only [intRangeCount, List.mem_map] at h
  obtain ⟨i, _, rfl⟩ := h
  have h0 : (0 : Int) ≤ Int.ofNat i := Int.natCast_nonneg i
  omega

theorem intRangeCount_nodup (s c : Int) : (intRangeCount s c).Nodup := by
  unfold intRangeCount
  refine List.Nodup.map ?_ (List.nodup_range c.toNat)
  intro i j h
  have h2 : (i : Int) = (j : Int) := add_left_cancel h
  exact_mod_cast h2

theorem pad3i_nonneg {x : Int} (hx : 0 ≤ x) : pad3i x = pad3 x.toNat := by
  unfold pad3i
  rw [if_neg (by omega)]

theorem format_inj_nonneg {cname g : Str} {x y : Int} (hx : 0 ≤ x) (hy : 0 ≤ y)
    (h : format_node_name cname g x = format_node_name cname g y) : x = y := by
  unfold format_node_name at h
  rw [pad3i_nonneg hx, pad3i_nonneg hy] at h
  have h2 := List.append_cancel_left h
  injection h2 with _ h3
  have h4 := List.append_cancel_left h3
  have := pad3_inj h4
  omega

theorem g_infix_format_int (cname g : Str) {x : Int} (hx : 0 ≤ x) :
    g <:+: format_node_name cname g x := by
  have : format_node_name cname g x = format_node_name cname g ((x.toNat : Nat) : Int) := by
    rw [Int.toNat_of_nonneg hx]
  rw [this]
  exact g_infix_format cname g x.toNat

/-- C3, amended: index uniqueness holds among simultaneously present nodes,
not over the cluster lifetime.  For a canonical inventory, every index a
batch add issues is strictly greater than every index currently present in
the group, the issued names collide neither with any current node name nor
with each other — but the allocator derives only from current membership,
so after the highest-indexed nodes are removed a later add does reuse
their indices (see the counterexample trace). -/
theorem C3_fresh_indices (cname g : Str) (entries : List (PNode × Option Nat))
    (hg : GroupName g)
    (hocc : ¬ g <:+: ((cname ++ ['-']) ++ g.dropLast))
    (hent : ∀ e ∈ entries, canonEntry cname g e = true)
    (count : Int) (xs : List Int)
    (hissued : add_issued (entries.map Prod.fst) g count = .ok xs) :
    (∀ x ∈ xs, ∀ e ∈ entries, ∀ j : Nat, e.2 = some j → (j : Int) < x)
    ∧ (∀ x ∈ xs, ∀ e ∈ entries, e.1.name ≠ format_node_name cname g x)
    ∧ xs.Nodup := by
  have hlan := lanAux_canon hg hocc entries hent 0
  have hxs : xs = intRangeCount (maxNatList (entries.filterMap Prod.snd) 0 + 1) count := by
    unfold add_issued at hissued
    rw [show last_allocated_node_index (entries.map Prod.fst) g
        = Except.ok (maxNatList (entries.filterMap Prod.snd) 0)
        from hlan] at hissued
    injection hissued with h
    exact h.symm
  have hM0 : (0 : Int) ≤ maxNatList (entries.filterMap Prod.snd) 0 :=
    foldl_max_le_acc _ 0
  have hgt : ∀ x ∈ xs, ∀ e ∈ entries, ∀ j : Nat, e.2 = some j → (j : Int) < x := by
    intro x hx e he j hj
    have hjin : j ∈ entries.filterMap Prod.snd :=
      List.mem_filterMap.mpr ⟨e, he, hj⟩
    have h1 : (j : Int) ≤ maxNatList (entries.filterMap Prod.snd) 0 :=
      mem_le_foldl_max _ 0 j hjin
    have h2 := mem_intRangeCount (hxs ▸ hx)
    omega
  have hxpos : ∀ x ∈ xs, (0 : Int) ≤ x := by
    intro x hx
    have := mem_intRangeCount (hxs ▸ hx)
    omega
  refine ⟨hgt, ?_, ?_⟩
  · intro x hx e he hname
    have he' := hent e he
    unfold canonEntry at he'
    match hj : e.2 with
    | some j =>
      rw [hj] at he'
      have hn : e.1.name = format_node_name cname g (j : Int) := eq_of_beq he'
      rw [hn] at hname
      have := format_inj_nonneg (by omega) (hxpos x hx) hname
      have := hgt x hx e he j hj
      omega
    | none =>
      rw [hj] at he'
      simp only [Bool.not_eq_eq_eq_not, Bool.not_true] at he'
      have hni : ¬ g <:+: e.1.name := of_decide_eq_false he'
      rw [hname] at hni
      exact hni (g_infix_format_int cname g (hxpos x hx))
  · rw [hxs]
    exact intRangeCount_nodup _ _

def c3wNode2 : PNode :=
  { id := str ("m2"), name := str ("d-worker002"), state := .running,
    public_ips := [], private_ips := [] }

def c3wEntries : List (PNode × Option Nat) := [(c3wNode2, some 2)]

/-- Witness for C3: on an inventory holding worker index 2, a batch of two
issues indices 3 and 4, which exceed 2, produce fresh names and are
pairwise distinct. -/
theorem C3_fresh_indices_witness :
    (GroupName (str ("worker"))
      ∧ ¬ (str ("worker")) <:+: (((str ("d")) ++ ['-']) ++ (str ("worker")).dropLast)
      ∧ (∀ e ∈ c3wEntries, canonEntry (str ("d")) (str ("worker")) e = true)
      ∧ add_issued (c3wEntries.map Prod.fst) (str ("worker")) 2 = .ok [3, 4])
    ∧ ((2 : Int) < 3 ∧ (2 : Int) < 4)
    ∧ c3wNode2.name ≠ format_node_name (str ("d")) (str ("worker")) 3
    ∧ ([3, 4] : List Int).Nodup := by
  have hg : GroupName (str ("worker")) := by decide
  have hocc : ¬ (str ("worker")) <:+: (((str ("d")) ++ ['-']) ++ (str ("worker")).dropLast) := by
    decide
  have hent : ∀ e ∈ c3wEntries, canonEntry (str ("d")) (str ("worker")) e = true := by decide
  have hiss : add_issued (c3wEntries.map Prod.fst) (str ("worker")) 2 = .ok [3, 4] := by rfl
  have h := C3_fresh_indices (str ("d")) (str ("worker")) c3wEntries hg hocc hent 2 [3, 4] hiss
  refine ⟨⟨hg, hocc, hent, hiss⟩, ?_, ?_, h.2.2⟩
  · exact ⟨h.1 3 (by simp) (c3wNode2, some 2) (by simp [c3wEntries]) 2 rfl,
      h.1 4 (by simp) (c3wNode2, some 2) (by simp [c3wEntries]) 2 rfl⟩
  · exact h.2.1 3 (by simp) (c3wNode2, some 2) (by simp [c3wEntries])

def c3xEnv : CloudEnv := fun _ _ => some .running

def c3xS0 : Sys :=
  { c := { template := str ("c"), name := str ("c"), storage_type := .yaml,
           options := [], nodes := [] },
    live := [], stopped := [], created := [], storage := .absent, t := 0 }

/-- The operation sequence add(g, 2), remove(g, 1), add(g, 1) of the C3
counterexample, with a provider that lists every instance as running. -/
def c3xTrace : Except PyErr Sys :=
  match cluster_add c3xEnv 0 c3xS0 (str ("g")) 2 false with
  | .error e => .error e
  | .ok s1 =>
    match cluster_remove c3xEnv s1 (str ("g")) 1 with
    | .error e => .error e
    | .ok s2 => cluster_add c3xEnv 0 s2 (str ("g")) 1 false

def c3xCreated : List Str :=
  match c3xTrace with
  | .ok s => s.created
  | .error _ => []

/-- Counterexample to C3 as stated: after adding group-g nodes 1 and 2 and
removing the highest-indexed one, a further add reissues index 2 — the
log of names issued by start_instance contains c-g002 twice, so an index
is reused within the same group after a removal and the issued names are
not unique over the cluster's lifetime. -/
theorem C3_counterexample :
    c3xCreated = [str ("c-g001"), str ("c-g002"), str ("c-g002")]
    ∧ ¬ c3xCreated.Nodup := by
  constructor
  · rfl
  · decide

theorem find?_skip {α : Type} {p : α → Bool} :
    ∀ (l r : List α), (∀ a ∈ l, p a = false) → List.find? p (l ++ r) = List.find? p r := by
  intro l
  induction l with
  | nil => intro r _; rfl
  | cons a t ih =>
    intro r h
    have ha : p a = false := h a (by simp)
    simp only [List.cons_append, List.find?_cons, ha]
    exact ih r (fun b hb => h b (by simp [hb]))

theorem eraseP_skip {α : Type} {p : α → Bool} :
    ∀ (l r : List α), (∀ a ∈ l, p a = false) → (l ++ r).eraseP p = l ++ r.eraseP p := by
  intro l
  induction l with
  | nil => intro r _; rfl
  | cons a t ih =>
    intro r h
    have ha : p a = false := h a (by simp)
    simp only [List.cons_append, List.eraseP_cons, ha]
    rw [ih r (fun b hb => h b (by simp [hb]))]
    simp

theorem eraseP_head {α : Type} {p : α → Bool} {a : α} (l : List α) (ha : p a = true) :
    (a :: l).eraseP p = l := by
  simp [List.eraseP_cons, ha]

/-- First-occurrence decomposition of an entry list around a given index. -/
theorem entry_decomp {m : Nat} :
    ∀ (E : List (PNode × Option Nat)), m ∈ E.filterMap Prod.snd →
      ∃ E1 e₀ E2, E = E1 ++ e₀ :: E2 ∧ e₀.2 = some m ∧ ∀ e ∈ E1, e.2 ≠ some m := by
  intro E
  induction E with
  | nil => intro h; simp at h
  | cons e t ih =>
    intro h
    by_cases he : e.2 = some m
    · exact ⟨[], e, t, by simp, he, by simp⟩
    · have hm : m ∈ t.filterMap Prod.snd := by
        rcases List.mem_filterMap.mp h with ⟨e', he', hsnd⟩
        rcases List.mem_cons.mp he' with rfl | hmem
        · exact absurd hsnd he
        · exact List.mem_filterMap.mpr ⟨e', hmem, hsnd⟩
      obtain ⟨E1, e₀, E2, hEq, hsnd, hnone⟩ := ih hm
      refine ⟨e :: E1, e₀, E2, by simp [hEq], hsnd, ?_⟩
      intro e' he'
      rcases List.mem_cons.mp he' with rfl | hmem
      · exact he
      · exact hnone e' hmem

theorem maxNatList_le {B : Int} :
    ∀ (l : List Nat) (acc : Int), (∀ x ∈ l, Int.ofNat x ≤ B) → acc ≤ B →
      maxNatList l acc ≤ B := by
  intro l
  induction l with
  | nil => intro acc _ hacc; exact hacc
  | cons y t ih =>
    intro acc h hacc
    show maxNatList t (max acc (Int.ofNat y)) ≤ B
    exact ih _ (fun x hx => h x (by simp [hx]))
      (max_le hacc (h y (by simp)))

theorem ofNat_eq_cast (n : Nat) : Int.ofNat n = (n : Int) := rfl

theorem maxNatList_range' {l : List Nat} {n : Nat} (hperm : l.Perm (List.range' 1 n))
    (hn : 1 ≤ n) : maxNatList l 0 = Int.ofNat n := by
  have hmem : ∀ x ∈ l, x ∈ List.range' 1 n := fun x hx => hperm.mem_iff.mp hx
  have hbound : ∀ x ∈ l, Int.ofNat x ≤ Int.ofNat n := by
    intro x hx
    have := List.mem_range'_1.mp (hmem x hx)
    rw [ofNat_eq_cast, ofNat_eq_cast]
    omega
  have hnin : n ∈ l := hperm.mem_iff.mpr (List.mem_range'_1.mpr ⟨hn, by omega⟩)
  refine le_antisymm (maxNatList_le l 0 hbound ?_) (mem_le_foldl_max l 0 n hnin)
  rw [ofNat_eq_cast]
  omega

theorem intRangeDown_succ (s : Int) (c : Nat) :
    intRangeDown s (Int.ofNat (c + 1)) = s :: intRangeDown (s - 1) (Int.ofNat c) := by
  unfold intRangeDown
  rw [show (Int.ofNat (c + 1)).toNat = c + 1 from rfl,
      show (Int.ofNat c).toNat = c from rfl]
  rw [List.range_succ_eq_map]
  simp only [List.map_cons, List.map_map]
  congr 1
  · simp
  · refine List.map_congr_left ?_
    intro i _
    show s - Int.ofNat (i + 1) = s - 1 - Int.ofNat i
    rw [ofNat_eq_cast, ofNat_eq_cast]
    push_cast
    ring

theorem contains_eq_true_iff {α : Type} [BEq α] [LawfulBEq α] (l : List α) (a : α) :
    l.contains a = true ↔ a ∈ l := by
  induction l with
  | nil => simp
  | cons b t ih =>
    simp only [List.contains_cons, Bool.or_eq_true, beq_iff_eq, ih, List.mem_cons]

theorem pnode_set_running {n : PNode} (h : n.state = NodeSt.running) :
    ({ n with state := NodeSt.running } : PNode) = n := by
  cases n
  simp_all

theorem list_nodes_running {env : CloudEnv} (henv : ∀ t nm, env t nm = some NodeSt.running)
    (s : Sys) (hst : ∀ nd ∈ s.live, nd.state = NodeSt.running) :
    list_nodes env s = s.live := by
  unfold list_nodes
  have haux : ∀ (l : List PNode), (∀ nd ∈ l, nd.state = NodeSt.running) →
      l.filterMap (fun n => (env s.t n.name).map (fun st => { n with state := st })) = l := by
    intro l
    induction l with
    | nil => intro _; rfl
    | cons n t ih =>
      intro h
      have hn : (env s.t n.name).map (fun st => ({ n with state := st } : PNode)) = some n := by
        rw [henv]
        simp only [Option.map_some']
        rw [pnode_set_running (h n (by simp))]
      simp only [List.filterMap_cons, hn]
      rw [ih (fun nd hnd => h nd (by simp [hnd]))]
  exact haux s.live hst

theorem upd_id {env : CloudEnv} (henv : ∀ t nm, env t nm = some NodeSt.running)
    (s : Sys) (hlive : s.live = s.c.nodes)
    (hst : ∀ nd ∈ s.c.nodes, nd.state = NodeSt.running) :
    upd env s = s := by
  have h1 : list_nodes env s = s.c.nodes := by
    rw [list_nodes_running henv s (by rw [hlive]; exact hst), hlive]
  unfold upd update_node_states_core
  rw [h1]
  have h2 : s.c.nodes.filter
      (fun pn => (s.c.nodes.map PNode.name).contains pn.name) = s.c.nodes := by
    rw [List.filter_eq_self]
    intro pn hpn
    exact (contains_eq_true_iff _ _).mpr (List.mem_map_of_mem PNode.name hpn)
  simp only [h2]

/-- Per-node matching fact: a canonical entry whose index is not m does not
answer to the name of index m. -/
theorem entry_name_ne {cname g : Str} (_hg : GroupName g)
    {e : PNode × Option Nat} (hcan : canonEntry cname g e = true) {m : Nat}
    (hne : e.2 ≠ some m) :
    (e.1.name == format_node_name cname g (Int.ofNat m)) = false := by
  unfold canonEntry at hcan
  match hx : e.2 with
  | some i =>
    rw [hx] at hcan
    have hn : e.1.name = format_node_name cname g (Int.ofNat i) := eq_of_beq hcan
    have hi : i ≠ m := fun h => hne (by rw [hx, h])
    refine beq_eq_false_iff_ne.mpr ?_
    rw [hn]
    intro hfmt
    have := format_inj_nonneg (x := Int.ofNat i) (y := Int.ofNat m)
      (by rw [ofNat_eq_cast]; omega) (by rw [ofNat_eq_cast]; omega) hfmt
    rw [ofNat_eq_cast, ofNat_eq_cast] at this
    exact hi (by exact_mod_cast this)
  | none =>
    rw [hx] at hcan
    simp only [Bool.not_eq_eq_eq_not, Bool.not_true] at hcan
    have hni : ¬ g <:+: e.1.name := of_decide_eq_false hcan
    refine beq_eq_false_iff_ne.mpr ?_
    intro hfmt
    rw [hfmt] at hni
    exact hni (g_infix_format_int cname g (by rw [ofNat_eq_cast]; omega))

/-- The filter predicate that keeps an entry when its index does not exceed
the bound (non-group entries always pass). -/
def keepUpTo (b : Nat) (e : PNode × Option Nat) : Bool :=
  match e.2 with
  | some i => decide (i ≤ b)
  | none => true

theorem cluster_dump_false_yaml (env : CloudEnv) (X : Sys)
    (h : X.c.storage_type = .yaml) :
    cluster_dump env false X = .ok { X with storage := .yamlDoc (mkDoc X.c) } := by
  unfold cluster_dump
  show (match X.c.storage_type with
    | StorageType.yaml => Except.ok { X with storage := StorageContent.yamlDoc (mkDoc X.c) }
    | StorageType.json => Except.ok { X with storage := StorageContent.empty }
    | StorageType.pickle => Except.error PyErr.valueError) = _
  rw [h]

/-- One remove_by_name call on a canonical inventory removes exactly the
entry carrying index m from the inventory, the provider and nothing
else. -/
theorem remove_by_name_step
    {cname g : Str} (hg : GroupName g)
    {env : CloudEnv} (henv : ∀ t nm, env t nm = some NodeSt.running)
    (E : List (PNode × Option Nat))
    (hent : ∀ e ∈ E, canonEntry cname g e = true)
    (hstates : ∀ e ∈ E, (Prod.fst e).state = NodeSt.running)
    (hids : ((E.map Prod.fst).map PNode.id).Nodup)
    (hidx : (E.filterMap Prod.snd).Nodup)
    (m : Nat) (hm : m ∈ E.filterMap Prod.snd)
    (s : Sys)
    (hnodes : s.c.nodes = E.map Prod.fst)
    (hlive : s.live = E.map Prod.fst)
    (hyaml : s.c.storage_type = .yaml) :
    ∃ s', remove_by_name env s (format_node_name cname g (Int.ofNat m)) = .ok s'
      ∧ s'.c.nodes = (E.filter (fun e => !(e.2 == some m))).map Prod.fst
      ∧ s'.live = (E.filter (fun e => !(e.2 == some m))).map Prod.fst
      ∧ s'.stopped = s.stopped ++ [format_node_name cname g (Int.ofNat m)]
      ∧ s'.created = s.created
      ∧ s'.c.storage_type = s.c.storage_type
      ∧ s'.c.name = s.c.name ∧ s'.c.template = s.c.template
      ∧ s'.c.options = s.c.options ∧ s'.t = s.t := by
  obtain ⟨E1, e₀, E2, hEq, hsnd, hE1⟩ := entry_decomp E hm
  have he₀mem : e₀ ∈ E := by rw [hEq]; simp
  have hE2 : ∀ e ∈ E2, e.2 ≠ some m := by
    intro e he hesnd
    have hidx' := hidx
    rw [hEq, List.filterMap_append, List.filterMap_cons, hsnd] at hidx'
    have hmem2 : m ∈ E2.filterMap Prod.snd := List.mem_filterMap.mpr ⟨e, he, hesnd⟩
    rcases List.nodup_append.mp hidx' with ⟨_, hnodup2, _⟩
    exact (List.nodup_cons.mp hnodup2).1 hmem2
  have hname₀ : e₀.1.name = format_node_name cname g (Int.ofNat m) := by
    have := hent e₀ he₀mem
    unfold canonEntry at this
    rw [hsnd] at this
    exact eq_of_beq this
  -- the id of the removed node occurs nowhere else
  have hids' : (E1.map Prod.fst).map PNode.id ++ e₀.1.id :: (E2.map Prod.fst).map PNode.id
      = (E.map Prod.fst).map PNode.id := by
    rw [hEq]
    simp
  have hidnodup := hids
  rw [← hids'] at hidnodup
  rcases List.nodup_append.mp hidnodup with ⟨_, hid2, hiddisj⟩
  have hid_notE1 : ∀ e ∈ E1, e.1.id ≠ e₀.1.id := by
    intro e he hideq
    exact hiddisj (a := e.1.id)
      (by exact List.mem_map_of_mem _ (List.mem_map_of_mem _ he)) (by simp [hideq])
  -- step 1: the refresh leaves the state unchanged
  have hupd : upd env s = s := by
    refine upd_id henv s (by rw [hlive, hnodes]) ?_
    rw [hnodes]
    intro nd hnd
    rcases List.mem_map.mp hnd with ⟨e, he, rfl⟩
    exact hstates e he
  -- step 2: find? locates the node of index m
  have hfind : s.c.nodes.find?
      (fun n => n.name == format_node_name cname g (Int.ofNat m)) = some e₀.1 := by
    rw [hnodes, hEq]
    simp only [List.map_append, List.map_cons]
    rw [find?_skip _ _ (fun nd hnd => by
      rcases List.mem_map.mp hnd with ⟨e, he, rfl⟩
      exact entry_name_ne hg (hent e (by rw [hEq]; simp [he])) (hE1 e he))]
    rw [List.find?_cons]
    rw [show (e₀.1.name == format_node_name cname g (Int.ofNat m)) = true from by
      rw [hname₀]; exact beq_self_eq_true _]
  -- step 3: the provider erase removes exactly that node
  have hliveerase : (E.map Prod.fst).eraseP (fun n => n.id == e₀.1.id)
      = (E1 ++ E2).map Prod.fst := by
    rw [hEq]
    simp only [List.map_append, List.map_cons]
    rw [eraseP_skip _ _ (fun nd hnd => by
      rcases List.mem_map.mp hnd with ⟨e, he, rfl⟩
      exact beq_eq_false_iff_ne.mpr (hid_notE1 e he))]
    simp only [List.eraseP_cons, beq_self_eq_true, cond_true]
  -- step 4: the inventory erase removes exactly that node
  have hnodeserase : (E.map Prod.fst).eraseP (fun n => n == e₀.1)
      = (E1 ++ E2).map Prod.fst := by
    rw [hEq]
    simp only [List.map_append, List.map_cons]
    rw [eraseP_skip _ _ (fun nd hnd => by
      rcases List.mem_map.mp hnd with ⟨e, he, rfl⟩
      refine beq_eq_false_iff_ne.mpr ?_
      intro heq
      exact hid_notE1 e he (by rw [heq]))]
    simp only [List.eraseP_cons, beq_self_eq_true, cond_true]
  -- step 5: the filter description of the result
  have hfilter : E.filter (fun e => !(e.2 == some m)) = E1 ++ E2 := by
    rw [hEq, List.filter_append, List.filter_cons]
    rw [show (!(e₀.2 == some m)) = false from by rw [hsnd]; simp]
    simp only [Bool.false_eq_true, if_neg (by simp : ¬ False)]
    rw [List.filter_eq_self.mpr (fun e he => by
        simp only [Bool.not_eq_eq_eq_not, Bool.not_false]
        exact beq_eq_false_iff_ne.mpr (hE1 e he)),
      List.filter_eq_self.mpr (fun e he => by
        simp only [Bool.not_eq_eq_eq_not, Bool.not_false]
        exact beq_eq_false_iff_ne.mpr (hE2 e he))]
  -- assemble
  have hcontains : ((s.live.map PNode.id).contains e₀.1.id) = true := by
    rw [hlive]
    exact (contains_eq_true_iff _ _).mpr
      (List.mem_map_of_mem _ (by rw [hEq]; simp : e₀.1 ∈ E.map Prod.fst))
  have hstopval : stop_instance s e₀.1
      = { s with live := s.live.eraseP (fun n => n.id == e₀.1.id),
                 stopped := s.stopped ++ [e₀.1.name] } := by
    unfold stop_instance
    rw [if_pos hcontains]
  have heq1 : remove_by_name env s (format_node_name cname g (Int.ofNat m))
      = match (upd env s).c.nodes.find?
          (fun n => n.name == format_node_name cname g (Int.ofNat m)) with
        | none => .ok (upd env s)
        | some node =>
          cluster_dump env false
            { (stop_instance (upd env s) node) with
              c := { (stop_instance (upd env s) node).c with
                     nodes := (stop_instance (upd env s) node).c.nodes.eraseP
                       (fun n => n == node) } } := rfl
  rw [heq1, hupd, hfind]
  show ∃ s', cluster_dump env false
      { (stop_instance s e₀.1) with
        c := { (stop_instance s e₀.1).c with
               nodes := (stop_instance s e₀.1).c.nodes.eraseP (fun n => n == e₀.1) } }
      = .ok s' ∧ _
  rw [hstopval]
  rw [cluster_dump_false_yaml env _ (by exact hyaml)]
  refine ⟨_, rfl, ?_, ?_, ?_, ?_, ?_, ?_, ?_, ?_, ?_⟩ <;>
    simp [hfilter, List.map_append, hnodes, hlive, hliveerase, hnodeserase, hname₀]

theorem keep_step {b : Nat} (hb : 1 ≤ b) (e : PNode × Option Nat) :
    (keepUpTo b e && !(e.2 == some b)) = keepUpTo (b - 1) e := by
  unfold keepUpTo
  match e.2 with
  | none => simp
  | some i =>
    by_cases h : i = b
    · subst h
      rw [show ((some i == some i) : Bool) = true from beq_self_eq_true _]
      simp
      omega
    · rw [show ((some i == some b) : Bool) = false from
        beq_eq_false_iff_ne.mpr (fun hc => h (Option.some_injective _ hc))]
      simp only [Bool.not_false, Bool.and_true]
      rw [decide_eq_decide]
      omega

theorem filterMap_keepUpTo (b : Nat) : ∀ (E : List (PNode × Option Nat)),
    (E.filter (keepUpTo b)).filterMap Prod.snd
      = (E.filterMap Prod.snd).filter (fun i => decide (i ≤ b)) := by
  intro E
  induction E with
  | nil => rfl
  | cons e t ih =>
    rw [List.filter_cons]
    match hx : e.2 with
    | none =>
      have hk : keepUpTo b e = true := by unfold keepUpTo; rw [hx]
      rw [if_pos hk]
      simp only [List.filterMap_cons, hx]
      exact ih
    | some i =>
      have hk : keepUpTo b e = decide (i ≤ b) := by unfold keepUpTo; rw [hx]
      by_cases hib : i ≤ b
      · rw [if_pos (by rw [hk]; simp [hib])]
        simp only [List.filterMap_cons, hx, List.filter_cons]
        simp [hib, ih]
      · rw [if_neg (by rw [hk]; simp [hib])]
        simp only [List.filterMap_cons, hx, List.filter_cons]
        simp [hib, ih]

theorem filter_keep_step {b : Nat} (hb : 1 ≤ b) (E : List (PNode × Option Nat)) :
    (E.filter (keepUpTo b)).filter (fun e => !(e.2 == some b))
      = E.filter (keepUpTo (b - 1)) := by
  rw [List.filter_filter]
  exact List.filter_congr (fun e _ => by rw [Bool.and_comm]; exact keep_step hb e)

/-- Effect of the countdown removal loop of Cluster.remove on a canonical
inventory: removing c indices starting from bound b leaves exactly the
entries with index at most b - c. -/
theorem remove_loop_spec
    {cname g : Str} (hg : GroupName g)
    {env : CloudEnv} (henv : ∀ t nm, env t nm = some NodeSt.running)
    (entries : List (PNode × Option Nat)) (n : Nat)
    (hent : ∀ e ∈ entries, canonEntry cname g e = true)
    (hstates : ∀ e ∈ entries, (Prod.fst e).state = NodeSt.running)
    (hids : ((entries.map Prod.fst).map PNode.id).Nodup)
    (hperm : (entries.filterMap Prod.snd).Perm (List.range' 1 n)) :
    ∀ (c : Nat), ∀ (b : Nat), c ≤ b → b ≤ n →
    ∀ (s : Sys),
      s.c.nodes = (entries.filter (keepUpTo b)).map Prod.fst →
      s.live = (entries.filter (keepUpTo b)).map Prod.fst →
      s.c.name = cname →
      s.c.storage_type = .yaml →
      ∃ s', remove_loop env g (intRangeDown (Int.ofNat b) (Int.ofNat c)) s = .ok s'
        ∧ s'.c.nodes = (entries.filter (keepUpTo (b - c))).map Prod.fst
        ∧ s'.live = (entries.filter (keepUpTo (b - c))).map Prod.fst
        ∧ s'.stopped = s.stopped
            ++ (List.range c).map (fun i => format_node_name cname g (Int.ofNat (b - i)))
        ∧ s'.c.name = cname ∧ s'.c.storage_type = .yaml := by
  have hidxnodup : (entries.filterMap Prod.snd).Nodup :=
    hperm.nodup_iff.mpr (List.nodup_range' _ _)
  intro c
  induction c with
  | zero =>
    intro b _ _ s hn hl hcn hy
    refine ⟨s, rfl, by simpa using hn, by simpa using hl, by simp, hcn, hy⟩
  | succ c ih =>
    intro b hcb hbn s hn hl hcn hy
    have hb1 : 1 ≤ b := by omega
    set Eb := entries.filter (keepUpTo b) with hEb
    have hentb : ∀ e ∈ Eb, canonEntry cname g e = true :=
      fun e he => hent e (List.mem_of_mem_filter he)
    have hstatesb : ∀ e ∈ Eb, (Prod.fst e).state = NodeSt.running :=
      fun e he => hstates e (List.mem_of_mem_filter he)
    have hidsb : ((Eb.map Prod.fst).map PNode.id).Nodup :=
      List.Nodup.sublist
        (List.Sublist.map PNode.id (List.Sublist.map Prod.fst (List.filter_sublist entries)))
        hids
    have hidxb : (Eb.filterMap Prod.snd).Nodup :=
      List.Nodup.sublist (List.Sublist.filterMap Prod.snd (List.filter_sublist entries))
        hidxnodup
    have hmem : b ∈ Eb.filterMap Prod.snd := by
      rw [hEb, filterMap_keepUpTo]
      refine List.mem_filter.mpr ⟨?_, by simp⟩
      exact hperm.mem_iff.mpr (List.mem_range'_1.mpr ⟨hb1, by omega⟩)
    obtain ⟨s1, hs1, hnodes1, hlive1, hstop1, _, hst1, hname1, _, _, _⟩ :=
      remove_by_name_step hg henv Eb hentb hstatesb hidsb hidxb b hmem s hn hl hy
    have hfs : (Eb.filter (fun e => !(e.2 == some b))).map Prod.fst
        = (entries.filter (keepUpTo (b - 1))).map Prod.fst := by
      rw [hEb, filter_keep_step hb1]
    obtain ⟨s', hs', hn', hl', hstop', hcn', hy'⟩ :=
      ih (b - 1) (by omega) (by omega) s1
        (by rw [hnodes1, hfs]) (by rw [hlive1, hfs])
        (by rw [hname1, hcn]) (by rw [hst1, hy])
    have hloop : remove_loop env g (intRangeDown (Int.ofNat b) (Int.ofNat (c + 1))) s
        = remove_loop env g (intRangeDown (Int.ofNat (b - 1)) (Int.ofNat c)) s1 := by
      rw [intRangeDown_succ]
      show (match remove_by_name env s (format_node_name (effective_name s.c) g (Int.ofNat b)) with
            | Except.error e => (Except.error e : Except PyErr Sys)
            | Except.ok s2 => remove_loop env g (intRangeDown (Int.ofNat b - 1) (Int.ofNat c)) s2) = _
      rw [effective_name_eq, hcn, hs1]
      rw [show Int.ofNat b - 1 = Int.ofNat (b - 1) from by
        rw [ofNat_eq_cast, ofNat_eq_cast]; omega]
    have harith : b - 1 - c = b - (c + 1) := by omega
    refine ⟨s', by rw [hloop]; exact hs', ?_, ?_, ?_, hcn', hy'⟩
    · rw [hn', harith]
    · rw [hl', harith]
    · rw [hstop', hstop1, List.append_assoc]
      congr 1
      rw [List.range_succ_eq_map]
      simp only [List.map_cons, List.map_map, Nat.sub_zero, List.singleton_append]
      congr 1
      refine List.map_congr_left ?_
      intro i _
      simp only [Function.comp_apply]
      congr 1
      rw [ofNat_eq_cast, ofNat_eq_cast]
      omega

/-- C4: on a cluster whose group g holds exactly the indices 1..n (plus
possibly nodes of other groups), remove(g, k) with k at most n removes
exactly the k highest-indexed nodes of the group, highest first, leaving
exactly the nodes with indices 1..n-k (and every other node) present. -/
theorem C4_remove_highest (cname g : Str) (entries : List (PNode × Option Nat))
    (n k : Nat)
    (hg : GroupName g)
    (hocc : ¬ g <:+: ((cname ++ ['-']) ++ g.dropLast))
    (env : CloudEnv) (henv : ∀ t nm, env t nm = some NodeSt.running)
    (hent : ∀ e ∈ entries, canonEntry cname g e = true)
    (hstates : ∀ e ∈ entries, (Prod.fst e).state = NodeSt.running)
    (hids : ((entries.map Prod.fst).map PNode.id).Nodup)
    (hperm : (entries.filterMap Prod.snd).Perm (List.range' 1 n))
    (hk : k ≤ n)
    (s : Sys)
    (hn : s.c.nodes = entries.map Prod.fst)
    (hl : s.live = entries.map Prod.fst)
    (hcn : s.c.name = cname)
    (hy : s.c.storage_type = .yaml) :
    ∃ s', cluster_remove env s g (Int.ofNat k) = .ok s'
      ∧ s'.c.nodes = (entries.filter (keepUpTo (n - k))).map Prod.fst
      ∧ s'.stopped = s.stopped
          ++ (List.range k).map (fun i => format_node_name cname g (Int.ofNat (n - i))) := by
  have hlast : last_allocated_node_index s.c.nodes g
      = .ok (maxNatList (entries.filterMap Prod.snd) 0) := by
    rw [hn]
    exact lanAux_canon hg hocc entries hent 0
  by_cases hn0 : n = 0
  · subst hn0
    have hk0 : k = 0 := Nat.le_zero.mp hk
    subst hk0
    have hfm : entries.filterMap Prod.snd = [] := hperm.eq_nil
    have hkeep : entries.filter (keepUpTo 0) = entries := by
      rw [List.filter_eq_self]
      intro e he
      unfold keepUpTo
      match hx : e.2 with
      | none => rfl
      | some i =>
        exfalso
        have : i ∈ entries.filterMap Prod.snd := List.mem_filterMap.mpr ⟨e, he, hx⟩
        rw [hfm] at this
        exact absurd this (List.not_mem_nil i)
    have heq : cluster_remove env s g (Int.ofNat 0) = .ok s := by
      unfold cluster_remove
      rw [hlast, hfm]
      rfl
    exact ⟨s, heq, by rw [hkeep, hn], by simp⟩
  · have hn1 : 1 ≤ n := by omega
    have hmax : maxNatList (entries.filterMap Prod.snd) 0 = Int.ofNat n :=
      maxNatList_range' hperm hn1
    have heq : cluster_remove env s g (Int.ofNat k)
        = remove_loop env g (intRangeDown (Int.ofNat n) (Int.ofNat k)) s := by
      unfold cluster_remove
      rw [hlast, hmax]
    have hfull : entries.filter (keepUpTo n) = entries := by
      rw [List.filter_eq_self]
      intro e he
      unfold keepUpTo
      match hx : e.2 with
      | none => rfl
      | some i =>
        have : i ∈ entries.filterMap Prod.snd := List.mem_filterMap.mpr ⟨e, he, hx⟩
        have := List.mem_range'_1.mp (hperm.mem_iff.mp this)
        simp only [decide_eq_true_eq]
        omega
    obtain ⟨s', hs', hn', _, hstop', _, _⟩ :=
      remove_loop_spec hg henv entries n hent hstates hids hperm k n hk (le_refl n) s
        (by rw [hn, hfull]) (by rw [hl, hfull]) hcn hy
    exact ⟨s', by rw [heq]; exact hs', hn', hstop'⟩

def c4wN1 : PNode :=
  { id := str ("i1"), name := str ("c-worker001"), state := .running,
    public_ips := [], private_ips := [] }

def c4wN2 : PNode :=
  { id := str ("i2"), name := str ("c-worker002"), state := .running,
    public_ips := [], private_ips := [] }

def c4wN3 : PNode :=
  { id := str ("i3"), name := str ("c-worker003"), state := .running,
    public_ips := [], private_ips := [] }

def c4wEntries : List (PNode × Option Nat) :=
  [(c4wN2, some 2), (c4wN1, some 1), (c4wN3, some 3)]

def c4wEnv : CloudEnv := fun _ _ => some NodeSt.running

def c4wS : Sys :=
  { c := { template := str ("c"), name := str ("c"), storage_type := .yaml,
           options := [], nodes := c4wEntries.map Prod.fst },
    live := c4wEntries.map Prod.fst, stopped := [], created := [],
    storage := .absent, t := 0 }

/-- Witness for C4: with worker indices 1..3 present and k = 2, remove
destroys worker003 then worker002 and leaves exactly worker001. -/
theorem C4_remove_highest_witness :
    (GroupName (str ("worker"))
      ∧ ¬ (str ("worker")) <:+: (((str ("c")) ++ ['-']) ++ (str ("worker")).dropLast)
      ∧ (∀ e ∈ c4wEntries, canonEntry (str ("c")) (str ("worker")) e = true)
      ∧ (c4wEntries.filterMap Prod.snd).Perm (List.range' 1 3)
      ∧ (2 : Nat) ≤ 3)
    ∧ (∃ s', cluster_remove c4wEnv c4wS (str ("worker")) (Int.ofNat 2) = .ok s'
        ∧ s'.c.nodes = [c4wN1]
        ∧ s'.stopped = [str ("c-worker003"), str ("c-worker002")]) := by
  have hg : GroupName (str ("worker")) := by decide
  have hocc : ¬ (str ("worker")) <:+: (((str ("c")) ++ ['-']) ++ (str ("worker")).dropLast) := by
    decide
  have hent : ∀ e ∈ c4wEntries, canonEntry (str ("c")) (str ("worker")) e = true := by decide
  have hperm : (c4wEntries.filterMap Prod.snd).Perm (List.range' 1 3) := by decide
  obtain ⟨s', h1, h2, h3⟩ :=
    C4_remove_highest (str ("c")) (str ("worker")) c4wEntries 3 2 hg hocc c4wEnv
      (fun _ _ => rfl) hent (by decide) (by decide) hperm (by decide) c4wS rfl rfl rfl rfl
  refine ⟨⟨hg, hocc, hent, hperm, by decide⟩, s', h1, ?_, ?_⟩
  · rw [h2]; rfl
  · rw [h3]; rfl

theorem list_nodes_names {env : CloudEnv} (henv : ∀ t nm, (env t nm).isSome = true)
    (s : Sys) : (list_nodes env s).map PNode.name = s.live.map PNode.name := by
  unfold list_nodes
  induction s.live with
  | nil => rfl
  | cons n t ih =>
    obtain ⟨st, hst⟩ := Option.isSome_iff_exists.mp (henv s.t n.name)
    simp only [List.filterMap_cons, hst, Option.map_some', List.map_cons]
    rw [ih]

theorem list_nodes_mem_live {env : CloudEnv} {s : Sys} {x : PNode}
    (hx : x ∈ list_nodes env s) : ∃ n ∈ s.live, x.id = n.id ∧ x.name = n.name := by
  unfold list_nodes at hx
  rcases List.mem_filterMap.mp hx with ⟨n, hn, hmap⟩
  rcases Option.map_eq_some'.mp hmap with ⟨st, _, hset⟩
  exact ⟨n, hn, by rw [← hset], by rw [← hset]⟩

theorem map_name_filter (p : Str → Bool) :
    ∀ (l : List PNode),
      (l.filter (fun n => p n.name)).map PNode.name = (l.map PNode.name).filter p := by
  intro l
  induction l with
  | nil => rfl
  | cons n t ih =>
    by_cases h : p n.name
    · rw [List.filter_cons, if_pos h, List.map_cons, ih, List.map_cons, List.filter_cons,
        if_pos h]
    · rw [List.filter_cons, if_neg h, ih, List.map_cons, List.filter_cons, if_neg h]

theorem erase_name_names {l : List PNode} (hnd : (l.map PNode.name).Nodup) {node : PNode}
    (hmem : node ∈ l) :
    (l.eraseP (fun n => n == node)).map PNode.name
      = (l.map PNode.name).filter (fun x => !(x == node.name)) := by
  induction l with
  | nil => exact absurd hmem (List.not_mem_nil node)
  | cons x t ih =>
    simp only [List.map_cons] at hnd
    have hnd' := List.nodup_cons.mp hnd
    by_cases hx : x = node
    · subst hx
      simp only [List.eraseP_cons, beq_self_eq_true, cond_true]
      simp only [List.map_cons, List.filter_cons]
      rw [show (!(x.name == x.name)) = false from by simp]
      simp only [Bool.false_eq_true, if_neg (by simp : ¬ False)]
      rw [List.filter_eq_self.mpr]
      intro a ha
      simp only [Bool.not_eq_eq_eq_not, Bool.not_false]
      refine beq_eq_false_iff_ne.mpr ?_
      intro heq
      rw [heq] at ha
      exact hnd'.1 ha
    · have hnode_t : node ∈ t := by
        rcases List.mem_cons.mp hmem with h | h
        · exact absurd h.symm hx
        · exact h
      have hxn : x.name ≠ node.name := by
        intro heq
        exact hnd'.1 (heq ▸ List.mem_map_of_mem PNode.name hnode_t)
      rw [show (x :: t).eraseP (fun n => n == node) = x :: t.eraseP (fun n => n == node) from by
        rw [List.eraseP_cons, show ((x == node) : Bool) = false from beq_eq_false_iff_ne.mpr hx]
        rfl]
      simp only [List.map_cons, List.filter_cons]
      rw [show (!(x.name == node.name)) = true from by
        rw [beq_eq_false_iff_ne.mpr hxn]; rfl]
      rw [if_pos rfl, ih hnd'.2 hnode_t]

theorem erase_id_names {l : List PNode} (hndn : (l.map PNode.name).Nodup)
    (hndi : (l.map PNode.id).Nodup) {node : PNode} {n₀ : PNode}
    (hmem : n₀ ∈ l) (hid : n₀.id = node.id) (hname : n₀.name = node.name) :
    (l.eraseP (fun n => n.id == node.id)).map PNode.name
      = (l.map PNode.name).filter (fun x => !(x == node.name)) := by
  induction l with
  | nil => exact absurd hmem (List.not_mem_nil n₀)
  | cons x t ih =>
    simp only [List.map_cons] at hndn hndi
    have hndn' := List.nodup_cons.mp hndn
    have hndi' := List.nodup_cons.mp hndi
    by_cases hx : x.id = node.id
    · have hxeq : x = n₀ := by
        rcases List.mem_cons.mp hmem with h | h
        · exact h.symm
        · exfalso
          exact hndi'.1 (by rw [hx, ← hid]; exact List.mem_map_of_mem PNode.id h)
      simp only [List.eraseP_cons, hx, beq_self_eq_true, cond_true]
      simp only [List.map_cons, List.filter_cons]
      rw [show (!(x.name == node.name)) = false from by
        rw [hxeq, hname]; simp]
      simp only [Bool.false_eq_true, if_neg (by simp : ¬ False)]
      rw [List.filter_eq_self.mpr]
      intro a ha
      simp only [Bool.not_eq_eq_eq_not, Bool.not_false]
      refine beq_eq_false_iff_ne.mpr ?_
      intro heq
      rw [heq, ← hname, ← hxeq] at ha
      exact hndn'.1 ha
    · have hn₀t : n₀ ∈ t := by
        rcases List.mem_cons.mp hmem with h | h
        · exact absurd (by rw [← h, hid]) hx
        · exact h
      have hxn : x.name ≠ node.name := by
        intro heq
        refine hndn'.1 ?_
        rw [heq, ← hname]
        exact List.mem_map_of_mem PNode.name hn₀t
      rw [show (x :: t).eraseP (fun n => n.id == node.id)
          = x :: t.eraseP (fun n => n.id == node.id) from by
        rw [List.eraseP_cons, show ((x.id == node.id) : Bool) = false from
          beq_eq_false_iff_ne.mpr hx]
        rfl]
      simp only [List.map_cons, List.filter_cons]
      rw [show (!(x.name == node.name)) = true from by
        rw [beq_eq_false_iff_ne.mpr hxn]; rfl]
      rw [if_pos rfl, ih hndn'.2 hndi'.2 hn₀t]

theorem cluster_dump_true_yaml (env : CloudEnv) (X : Sys)
    (h : X.c.storage_type = .yaml) :
    cluster_dump env true X
      = .ok { upd env X with storage := .yamlDoc (mkDoc (upd env X).c) } := by
  unfold cluster_dump
  show (match (upd env X).c.storage_type with
    | StorageType.yaml =>
        Except.ok { upd env X with storage := StorageContent.yamlDoc (mkDoc (upd env X).c) }
    | StorageType.json => Except.ok { upd env X with storage := StorageContent.empty }
    | StorageType.pickle => Except.error PyErr.valueError) = _
  rw [show (upd env X).c.storage_type = X.c.storage_type from rfl, h]

/-- Invariant carried through the rollback loop of Cluster.start: the
inventory names are exactly the pending names, every pending name is still
live, and names and ids are duplicate-free. -/
def RollbackInv (pending : List Str) (s : Sys) : Prop :=
  pending.Nodup
  ∧ (s.c.nodes.map PNode.name).Nodup
  ∧ (∀ nm ∈ s.c.nodes.map PNode.name, nm ∈ pending)
  ∧ (∀ nm ∈ pending, nm ∈ s.c.nodes.map PNode.name)
  ∧ (∀ nm ∈ pending, nm ∈ s.live.map PNode.name)
  ∧ (s.live.map PNode.name).Nodup
  ∧ (s.live.map PNode.id).Nodup
  ∧ s.c.storage_type = .yaml

instance (pending : List Str) (s : Sys) : Decidable (RollbackInv pending s) := by
  unfold RollbackInv
  infer_instance

/-- The compensating rollback of Cluster.start: removing every pending name
in turn empties the inventory and stops exactly the pending instances. -/
theorem rollback_spec {env : CloudEnv} (henv : ∀ t nm, (env t nm).isSome = true) :
    ∀ (pending : List Str) (s : Sys), RollbackInv pending s →
      ∃ s', rollback_loop env pending s = .ok s'
        ∧ s'.c.nodes = []
        ∧ s'.stopped = s.stopped ++ pending
        ∧ s'.c.storage_type = .yaml := by
  intro pending
  induction pending with
  | nil =>
    intro s hinv
    obtain ⟨_, _, hiffmp, _, _, _, _, hy⟩ := hinv
    have hempty : s.c.nodes = [] := by
      have : s.c.nodes.map PNode.name = [] := by
        rw [List.eq_nil_iff_forall_not_mem]
        intro nm hnm
        exact absurd (hiffmp nm hnm) (List.not_mem_nil nm)
      exact List.map_eq_nil_iff.mp this
    exact ⟨s, rfl, hempty, by simp, hy⟩
  | cons nm rest ih =>
    intro s hinv
    obtain ⟨hpnd, hnodesnd, hiffmp, hiffmpr, hsub, hlivend, hlivind, hy⟩ := hinv
    have hpnd' := List.nodup_cons.mp hpnd
    -- the refreshed inventory
    set s1 := upd env s with hs1def
    have hs1live : s1.live = s.live := rfl
    have hnames1 : s1.c.nodes.map PNode.name
        = (s.live.map PNode.name).filter
            (fun x => (s.c.nodes.map PNode.name).contains x) := by
      show ((list_nodes env s).filter
          (fun pn => (s.c.nodes.map PNode.name).contains pn.name)).map PNode.name = _
      rw [map_name_filter (fun x => (s.c.nodes.map PNode.name).contains x) (list_nodes env s),
        list_nodes_names henv s]
    have hmem1 : ∀ nm', nm' ∈ s1.c.nodes.map PNode.name
        ↔ (nm' ∈ s.live.map PNode.name ∧ nm' ∈ nm :: rest) := by
      intro nm'
      rw [hnames1]
      constructor
      · intro h
        rcases List.mem_filter.mp h with ⟨h1, h2⟩
        exact ⟨h1, hiffmp nm' ((contains_eq_true_iff _ _).mp h2)⟩
      · rintro ⟨h1, h2⟩
        exact List.mem_filter.mpr ⟨h1, (contains_eq_true_iff _ _).mpr (hiffmpr nm' h2)⟩
    have hnd1 : (s1.c.nodes.map PNode.name).Nodup := by
      rw [hnames1]
      exact hlivend.filter _
    -- locate the node carrying the head name
    have hnm1 : nm ∈ s1.c.nodes.map PNode.name :=
      (hmem1 nm).mpr ⟨hsub nm (by simp), by simp⟩
    rcases List.mem_map.mp hnm1 with ⟨nodew, hnodewmem, hnodewname⟩
    have hfindsome : (s1.c.nodes.find? (fun n => n.name == nm)).isSome = true := by
      rw [List.find?_isSome]
      exact ⟨nodew, hnodewmem, by rw [hnodewname]; exact beq_self_eq_true nm⟩
    obtain ⟨node, hfind⟩ := Option.isSome_iff_exists.mp hfindsome
    have hnodename : node.name = nm := by
      have hp := List.find?_some hfind
      exact eq_of_beq hp
    have hnodemem : node ∈ s1.c.nodes := List.mem_of_find?_eq_some hfind
    obtain ⟨n₀, hn₀live, hn₀id, hn₀name⟩ :=
      list_nodes_mem_live (List.mem_of_mem_filter hnodemem)
    -- the provider-side stop
    have hcontains : ((s1.live.map PNode.id).contains node.id) = true := by
      rw [hs1live]
      exact (contains_eq_true_iff _ _).mpr
        (hn₀id ▸ List.mem_map_of_mem PNode.id hn₀live)
    have hstopval : stop_instance s1 node
        = { s1 with live := s1.live.eraseP (fun n => n.id == node.id),
                    stopped := s1.stopped ++ [node.name] } := by
      unfold stop_instance
      rw [if_pos hcontains]
    -- the state visible to the recursive call
    set s2 : Sys :=
      { s1 with live := s1.live.eraseP (fun n => n.id == node.id),
                stopped := s1.stopped ++ [node.name],
                c := { s1.c with
                       nodes := s1.c.nodes.eraseP (fun n => n == node) } } with hs2def
    have hlive2names : s2.live.map PNode.name
        = (s.live.map PNode.name).filter (fun x => !(x == nm)) := by
      show (s.live.eraseP (fun n => n.id == node.id)).map PNode.name = _
      rw [erase_id_names hlivend hlivind hn₀live hn₀id.symm hn₀name.symm, hnodename]
    have hnodes2names : s2.c.nodes.map PNode.name
        = (s1.c.nodes.map PNode.name).filter (fun x => !(x == nm)) := by
      show (s1.c.nodes.eraseP (fun n => n == node)).map PNode.name = _
      rw [erase_name_names hnd1 hnodemem, hnodename]
    have hkey : remove_by_name env s nm
        = cluster_dump env false s2 := by
      show (match s1.c.nodes.find? (fun n => n.name == nm) with
            | none => Except.ok s1
            | some nd =>
              cluster_dump env false
                { (stop_instance s1 nd) with
                  c := { (stop_instance s1 nd).c with
                         nodes := (stop_instance s1 nd).c.nodes.eraseP
                           (fun n => n == nd) } }) = _
      simp only [hfind]
      rw [hstopval]
    have hy2 : s2.c.storage_type = .yaml := hy
    rw [cluster_dump_false_yaml env s2 hy2] at hkey
    -- invariant for the tail
    have hinv' : RollbackInv rest { s2 with storage := .yamlDoc (mkDoc s2.c) } := by
      refine ⟨hpnd'.2, ?_, ?_, ?_, ?_, ?_, ?_, hy⟩
      · show (s2.c.nodes.map PNode.name).Nodup
        rw [hnodes2names]
        exact hnd1.filter _
      · intro nm' h
        rw [show (({ s2 with storage := StorageContent.yamlDoc (mkDoc s2.c) } : Sys)).c.nodes
            = s2.c.nodes from rfl, hnodes2names] at h
        rcases List.mem_filter.mp h with ⟨h1, h2⟩
        have h3 := (hmem1 nm').mp h1
        have hne : nm' ≠ nm := by
          intro heq
          rw [heq] at h2
          simp at h2
        rcases List.mem_cons.mp h3.2 with h4 | h4
        · exact absurd h4 hne
        · exact h4
      · intro nm' h
        have hne : nm' ≠ nm := by
          intro heq
          rw [heq] at h
          exact hpnd'.1 h
        show nm' ∈ s2.c.nodes.map PNode.name
        rw [hnodes2names]
        refine List.mem_filter.mpr ⟨(hmem1 nm').mpr ⟨hsub nm' (by simp [h]), by simp [h]⟩, ?_⟩
        rw [beq_eq_false_iff_ne.mpr hne]
        rfl
      · intro nm' hnm'
        show nm' ∈ s2.live.map PNode.name
        rw [hlive2names]
        have hne : nm' ≠ nm := by
          intro heq
          rw [heq] at hnm'
          exact hpnd'.1 hnm'
        refine List.mem_filter.mpr ⟨hsub nm' (by simp [hnm']), ?_⟩
        rw [beq_eq_false_iff_ne.mpr hne]
        rfl
      · show (s2.live.map PNode.name).Nodup
        rw [hlive2names]
        exact hlivend.filter _
      · show (s2.live.map PNode.id).Nodup
        exact List.Nodup.sublist
          (List.Sublist.map PNode.id (List.eraseP_sublist s1.live)) hlivind
    obtain ⟨s', hs', hn', hstop', hy'⟩ := ih _ hinv'
    refine ⟨s', ?_, hn', ?_, hy'⟩
    · show (match remove_by_name env s nm with
            | Except.error e => (Except.error e : Except PyErr Sys)
            | Except.ok s3 => rollback_loop env rest s3) = _
      rw [hkey]
      exact hs'
    · rw [hstop']
      show (s2.stopped ++ rest) = s.stopped ++ nm :: rest
      show ((s.stopped ++ [node.name]) ++ rest) = _
      rw [hnodename, List.append_assoc]
      rfl

/-- C1: when, during start, the provisioning deadline expires before every
node reports running (pollAll returns the timed-out flag), start destroys
every node in the inventory snapshot taken by the rollback handler, the
in-memory inventory ends empty and the state persisted at the end of start
holds zero nodes. -/
theorem C1_start_timeout_rollback
    (env : CloudEnv) (henv : ∀ t nm, (env t nm).isSome = true)
    (fuel : Nat) (s sAdd sPoll : Sys) (nts : List (Str × Int))
    (hnts : node_types s.c.options = .ok nts)
    (hadd : start_add_phase env nts s = .ok sAdd)
    (hpoll : pollAll env fuel sAdd = (sPoll, true))
    (hinv : RollbackInv (sPoll.c.nodes.map PNode.name) sPoll) :
    ∃ s', cluster_start env fuel s = .ok s'
      ∧ s'.c.nodes = []
      ∧ s'.stopped = sPoll.stopped ++ sPoll.c.nodes.map PNode.name
      ∧ (∃ d, s'.storage = .yamlDoc d ∧ d.nodes = []) := by
  obtain ⟨s2, hs2, hn2, hstop2, hy2⟩ :=
    rollback_spec henv (sPoll.c.nodes.map PNode.name) sPoll hinv
  have hupd0 : (upd env s2).c.nodes = [] := by
    show ((list_nodes env s2).filter
        (fun pn => (s2.c.nodes.map PNode.name).contains pn.name)) = []
    rw [hn2]
    simp [List.contains]
  have hkey : cluster_start env fuel s = cluster_dump env true s2 := by
    unfold cluster_start
    simp only [hnts, hadd, hpoll, hs2]
  rw [cluster_dump_true_yaml env s2 hy2] at hkey
  refine ⟨_, hkey, hupd0, hstop2, ⟨mkDoc (upd env s2).c, rfl, ?_⟩⟩
  show (upd env s2).c.nodes.map mkNodeRecord = []
  rw [hupd0]
  rfl

def c1wEnv : CloudEnv :=
  fun _ nm => if nm = str ("c-worker002") then some NodeSt.pending else some NodeSt.running

def c1wS : Sys :=
  { c := { template := str ("c"), name := str ("c"), storage_type := .yaml,
           options := [(str ("worker_nodes"), str ("2"))], nodes := [] },
    live := [], stopped := [], created := [], storage := .absent, t := 0 }

def c1wAdd : Sys :=
  match start_add_phase c1wEnv [(str ("worker"), 2)] c1wS with
  | .ok s => s
  | .error _ => c1wS

def c1wPoll : Sys := (pollAll c1wEnv 3 c1wAdd).1

/-- Witness for C1: a template requesting two worker nodes where worker002
never reaches running; start times out, destroys both workers, and the
persisted document holds zero nodes. -/
theorem C1_start_timeout_rollback_witness :
    (node_types c1wS.c.options = .ok [(str ("worker"), 2)]
      ∧ start_add_phase c1wEnv [(str ("worker"), 2)] c1wS = .ok c1wAdd
      ∧ pollAll c1wEnv 3 c1wAdd = (c1wPoll, true)
      ∧ RollbackInv (c1wPoll.c.nodes.map PNode.name) c1wPoll
      ∧ c1wPoll.c.nodes.map PNode.name = [str ("c-worker001"), str ("c-worker002")])
    ∧ (∃ s', cluster_start c1wEnv 3 c1wS = .ok s'
        ∧ s'.c.nodes = []
        ∧ s'.stopped = c1wPoll.stopped ++ c1wPoll.c.nodes.map PNode.name
        ∧ (∃ d, s'.storage = .yamlDoc d ∧ d.nodes = [])) := by
  have henv : ∀ t nm, (c1wEnv t nm).isSome = true := by
    intro t nm
    unfold c1wEnv
    by_cases h : nm = str ("c-worker002") <;> simp [h]
  have hnts : node_types c1wS.c.options = .ok [(str ("worker"), 2)] := by rfl
  have hadd : start_add_phase c1wEnv [(str ("worker"), 2)] c1wS = .ok c1wAdd := by rfl
  have hpoll : pollAll c1wEnv 3 c1wAdd = (c1wPoll, true) := by rfl
  have hinv : RollbackInv (c1wPoll.c.nodes.map PNode.name) c1wPoll := by decide
  exact ⟨⟨hnts, hadd, hpoll, hinv, by rfl⟩,
    C1_start_timeout_rollback c1wEnv henv 3 c1wS c1wAdd c1wPoll
      [(str ("worker"), 2)] hnts hadd hpoll hinv⟩

/-- The single pending instance that the stuck polling loop of add keeps
observing. -/
def pendingNode (nm : Str) : PNode :=
  { id := nm, name := nm, state := .pending, public_ips := [], private_ips := [] }

/-- The polling loop of add-with-wait on a node that stays listed but never
reports running: it consumes the whole deadline and reports the timeout,
changing nothing but the clock (the inventory refresh rewrites the
inventory to the same single pending node). -/
theorem waitLoop_stuck {env : CloudEnv} {nm : Str}
    (hpend : ∀ t, env t nm = some NodeSt.pending) :
    ∀ (f : Nat) (s : Sys), s.live = [pendingNode nm] → s.c.nodes = [pendingNode nm] →
      waitLoop env nm f s
        = .ok ({ s with c := { s.c with nodes := [pendingNode nm] },
                        t := s.t + f }, true) := by
  intro f
  induction f with
  | zero =>
    intro s hl hn
    have hupd : (upd env s).c.nodes = [pendingNode nm] := by
      show ((list_nodes env s).filter
          (fun pn => (s.c.nodes.map PNode.name).contains pn.name)) = _
      rw [show list_nodes env s = [pendingNode nm] from by
        unfold list_nodes
        rw [hl]
        simp [hpend, pendingNode]]
      rw [hn]
      simp [pendingNode, List.contains]
    have hfind : (upd env s).c.nodes.find? (fun n => n.name == nm)
        = some (pendingNode nm) := by
      rw [hupd]
      simp [List.find?_cons, pendingNode]
    have hst : upd env s = { s with c := { s.c with nodes := [pendingNode nm] } } := by
      unfold upd
      rw [show (update_node_states_core (list_nodes env s) s.c.nodes).1
          = [pendingNode nm] from hupd]
    simp only [waitLoop, hfind]
    rw [if_neg (by simp [pendingNode] : ¬ (pendingNode nm).state = NodeSt.running)]
    rw [hst, Nat.add_zero]
  | succ f ih =>
    intro s hl hn
    have hupd : (upd env s).c.nodes = [pendingNode nm] := by
      show ((list_nodes env s).filter
          (fun pn => (s.c.nodes.map PNode.name).contains pn.name)) = _
      rw [show list_nodes env s = [pendingNode nm] from by
        unfold list_nodes
        rw [hl]
        simp [hpend, pendingNode]]
      rw [hn]
      simp [pendingNode, List.contains]
    have hfind : (upd env s).c.nodes.find? (fun n => n.name == nm)
        = some (pendingNode nm) := by
      rw [hupd]
      simp [List.find?_cons, pendingNode]
    have h1 : ({ upd env s with t := (upd env s).t + 1 } : Sys).live
        = [pendingNode nm] := by
      rw [show ({ upd env s with t := (upd env s).t + 1 } : Sys).live
          = s.live from rfl, hl]
    have hih := ih { upd env s with t := (upd env s).t + 1 } h1 hupd
    simp only [waitLoop, hfind]
    rw [if_neg (by simp [pendingNode] : ¬ (pendingNode nm).state = NodeSt.running)]
    rw [hih]
    have ht : ({ upd env s with t := (upd env s).t + 1 } : Sys).t + f
        = s.t + (f + 1) := by
      show s.t + 1 + f = s.t + (f + 1)
      omega
    rw [ht]
    rfl

/-- A live instance that the provider reports running. -/
def runningNode (nm : Str) : PNode :=
  { id := nm, name := nm, state := .running, public_ips := [], private_ips := [] }

def c8nm1 : Str := str ("c-worker001")

def c8nm2 : Str := str ("c-worker002")

/-- Provider behaviour for the per-node-timeout scenario: the instance named
c-worker001 stays listed but never leaves pending; every other instance
reports running. -/
def c8Env : CloudEnv :=
  fun _ nm => if nm = c8nm1 then some NodeSt.pending else some NodeSt.running

/-- An empty cluster named c with yaml storage. -/
def c8S : Sys :=
  ⟨⟨str ("c"), str ("c"), .yaml, [], []⟩, [], [], [], .absent, 0⟩

/-- State after creating c-worker001 from c8S. -/
def c8SA : Sys :=
  ⟨⟨str ("c"), str ("c"), .yaml, [], [pendingNode c8nm1]⟩,
    [pendingNode c8nm1], [], [c8nm1], .absent, 0⟩

/-- State after the stuck node c-worker001 has timed out and been destroyed
and evicted: its removal is persisted, and the deadline consumed fuel
sleeps. -/
def c8SC (fuel : Nat) : Sys :=
  ⟨⟨str ("c"), str ("c"), .yaml, [], []⟩, [], [c8nm1], [c8nm1],
    .yamlDoc ⟨str ("c"), str ("c"), [], []⟩, 0 + fuel⟩

/-- State after additionally creating c-worker002, which reports running at
once. -/
def c8SE (fuel : Nat) : Sys :=
  ⟨⟨str ("c"), str ("c"), .yaml, [], [runningNode c8nm2]⟩,
    [runningNode c8nm2], [c8nm1], [c8nm1, c8nm2],
    .yamlDoc ⟨str ("c"), str ("c"), [], []⟩, 0 + fuel⟩

/-- Final state of the batch add: only c-worker002 is in the inventory and
the persisted document, c-worker001 was destroyed, and both creations are
on record. -/
def c8SF (fuel : Nat) : Sys :=
  ⟨⟨str ("c"), str ("c"), .yaml, [], [runningNode c8nm2]⟩,
    [runningNode c8nm2], [c8nm1], [c8nm1, c8nm2],
    .yamlDoc ⟨str ("c"), str ("c"), [], [mkNodeRecord (runningNode c8nm2)]⟩,
    0 + fuel⟩

/-- C8 (amended): in a batch add(worker, 2, wait=True) against a provider
that keeps the first node listed but never running, the first node's
deadline expiry is handled at that node's granularity for every deadline:
the node is destroyed (it is recorded stopped and leaves the live set) and
excluded from the inventory, the batch goes on to create the second node,
and the final persisted inventory holds exactly the second node.  (The
other error of the claim, a node vanishing from the inventory, instead
aborts the whole batch; see the counterexample.) -/
theorem C8_timeout_per_node (fuel : Nat) :
    ∃ s', cluster_add c8Env fuel c8S (str ("worker")) 2 true = .ok s'
      ∧ s'.c.nodes.map PNode.name = [c8nm2]
      ∧ s'.live.map PNode.name = [c8nm2]
      ∧ s'.stopped = [c8nm1]
      ∧ s'.created = [c8nm1, c8nm2]
      ∧ ∃ d, s'.storage = .yamlDoc d ∧ d.nodes.map NodeRecord.name = [c8nm2] := by
  have hpend1 : ∀ t, c8Env t c8nm1 = some NodeSt.pending := fun t => rfl
  have hw1 := waitLoop_stuck hpend1 fuel c8SA rfl rfl
  have ha1 : add_one c8Env fuel true (str ("worker")) c8S 1 = .ok (c8SC fuel) := by
    show (match waitLoop c8Env c8nm1 fuel c8SA with
          | Except.error e => Except.error e
          | Except.ok (s, false) => Except.ok s
          | Except.ok (s, true) =>
            match s.c.nodes.find? (fun n => n.name == c8nm1) with
            | some n => remove_by_name c8Env s n.name
            | none => Except.error PyErr.nodeNotFound) = Except.ok (c8SC fuel)
    rw [hw1]
    rfl
  have ha2 : add_one c8Env fuel true (str ("worker")) (c8SC fuel) 2
      = .ok (c8SE fuel) := by
    cases fuel with
    | zero => rfl
    | succ n => rfl
  have hloop : add_loop c8Env fuel true (str ("worker")) [1, 2] c8S
      = .ok (c8SE fuel) := by
    have h1 : add_loop c8Env fuel true (str ("worker")) [1, 2] c8S
        = add_loop c8Env fuel true (str ("worker")) [2] (c8SC fuel) := by
      show (match add_one c8Env fuel true (str ("worker")) c8S 1 with
            | Except.error e => (Except.error e : Except PyErr Sys)
            | Except.ok s1 => add_loop c8Env fuel true (str ("worker")) [2] s1) = _
      rw [ha1]
    have h2 : add_loop c8Env fuel true (str ("worker")) [2] (c8SC fuel)
        = add_loop c8Env fuel true (str ("worker")) [] (c8SE fuel) := by
      show (match add_one c8Env fuel true (str ("worker")) (c8SC fuel) 2 with
            | Except.error e => (Except.error e : Except PyErr Sys)
            | Except.ok s1 => add_loop c8Env fuel true (str ("worker")) [] s1) = _
      rw [ha2]
    rw [h1, h2]
    rfl
  refine ⟨c8SF fuel, ?_, rfl, rfl, rfl, rfl,
    ⟨⟨str ("c"), str ("c"), [], [mkNodeRecord (runningNode c8nm2)]⟩, rfl, rfl⟩⟩
  show (match add_loop c8Env fuel true (str ("worker")) [1, 2] c8S with
        | Except.error e => (Except.error e : Except PyErr Sys)
        | Except.ok s => cluster_dump c8Env true s) = Except.ok (c8SF fuel)
  rw [hloop]
  rfl

/-- Provider behaviour for the vanish scenario: c-worker001 is listed
pending at creation time (tick 0) and disappears from the provider's
listing afterwards; every other instance reports running. -/
def c8xEnv : CloudEnv :=
  fun t nm =>
    if nm = c8nm1 then (if t = 0 then some NodeSt.pending else none)
    else some NodeSt.running

/-- C8, counterexample: under c8xEnv the first node of the batch vanishes
from the inventory during the wait, and instead of destroying it and
carrying on, add raises NodeNotFound: the whole batch aborts, the second
node is never created and nothing is persisted. -/
theorem C8_counterexample :
    cluster_add c8xEnv 3 c8S (str ("worker")) 2 true
      = .error PyErr.nodeNotFound := by rfl

/-- C6 (amended): what Cluster.__update_node_states does with the persisted
inventory (nodes) and the provider's live listing (liveNodes): (i) it
never places a node in the rebuilt in-memory inventory that the provider
does not report live; (ii) every inventory node whose name the rebuilt
inventory no longer carries is flagged by the consistency warning of lines
110-113; (iii) but every flagged node has been dropped from the rebuilt
inventory (its name is gone), not kept. -/
theorem C6_reconcile (liveNodes nodes : List PNode) :
    (∀ n, n ∈ (update_node_states_core liveNodes nodes).1 → n ∈ liveNodes)
    ∧ (∀ n, n ∈ nodes →
        (((update_node_states_core liveNodes nodes).1.map PNode.name).contains n.name)
          = false →
        n ∈ (update_node_states_core liveNodes nodes).2)
    ∧ (∀ n, n ∈ (update_node_states_core liveNodes nodes).2 →
        (((update_node_states_core liveNodes nodes).1.map PNode.name).contains n.name)
          = false) := by
  refine ⟨?_, ?_, ?_⟩
  · intro n hn
    simp only [update_node_states_core] at hn
    exact (List.mem_filter.mp hn).1
  · intro n hn hmiss
    simp only [update_node_states_core] at hmiss ⊢
    exact List.mem_filter.mpr ⟨hn, by rw [hmiss]; rfl⟩
  · intro n hn
    simp only [update_node_states_core] at hn ⊢
    have h2 := (List.mem_filter.mp hn).2
    simpa using h2

/-- Witness for C6: a persisted node the provider no longer lists lands in
the flagged list. -/
theorem C6_reconcile_witness :
    pendingNode (str ("w6")) ∈ (update_node_states_core [] [pendingNode (str ("w6"))]).2 :=
  (C6_reconcile [] [pendingNode (str ("w6"))]).2.1 (pendingNode (str ("w6")))
    (List.mem_singleton.mpr rfl) rfl

/-- C6, counterexample to the claim's "flagged but not dropped": a persisted
node the provider does not list is flagged AND removed from the in-memory
inventory (line 104 rebinds self.nodes to the filtered live listing, so
the missing node is silently gone from the inventory the warning of lines
110-113 merely logs about). -/
theorem C6_counterexample :
    (update_node_states_core [] [pendingNode (str ("gone"))]).2
        = [pendingNode (str ("gone"))]
    ∧ pendingNode (str ("gone")) ∉ (update_node_states_core [] [pendingNode (str ("gone"))]).1 := by
  refine ⟨rfl, ?_⟩
  simp [update_node_states_core]

/-- Serialising a node to the storage document and reading it back preserves
any field that the document round-trips pointwise. -/
theorem load_dump_field {α : Type} (f : PNode → α) (g : PNode → α)
    (hf : ∀ n, f (loadNodeRecord (mkNodeRecord n)) = g n) (l : List PNode) :
    ((l.map mkNodeRecord).map loadNodeRecord).map f = l.map g := by
  induction l with
  | nil => rfl
  | cons a l ih => simp only [List.map_cons, hf, ih]

/-- C5: save-then-load round-trips the node inventory (id, name, state,
addresses) and the options map for yaml storage only.  For json storage,
__dump calls json.dumps(storage_buffer, sf), which returns a string and
writes nothing, so the file stays truncated-empty and the next load dies
on the None that yaml/json parsing of an empty file yields
(AttributeError); for pickle storage, __dump calls
pickle.dumps(storage_buffer, sf), which treats the file object as the
pickle protocol argument and raises (ValueError).  So the claimed
round-trip holds for yaml and fails for json and pickle. -/
theorem C5_save_load_roundtrip (env : CloudEnv) (s : Sys) :
    (s.c.storage_type = .yaml →
      ∃ s1 s2, cluster_dump env false s = .ok s1 ∧ cluster_load env false s1 = .ok s2
        ∧ s2.c.nodes.map PNode.id = s.c.nodes.map PNode.id
        ∧ s2.c.nodes.map PNode.name = s.c.nodes.map PNode.name
        ∧ s2.c.nodes.map PNode.state = s.c.nodes.map PNode.state
        ∧ s2.c.nodes.map PNode.public_ips = s.c.nodes.map PNode.public_ips
        ∧ s2.c.nodes.map PNode.private_ips = s.c.nodes.map PNode.private_ips
        ∧ s2.c.options = s.c.options)
    ∧ (s.c.storage_type = .json →
      ∃ s1, cluster_dump env false s = .ok s1 ∧ s1.storage = .empty
        ∧ cluster_load env false s1 = .error PyErr.attributeError)
    ∧ (s.c.storage_type = .pickle →
      cluster_dump env false s = .error PyErr.valueError) := by
  refine ⟨?_, ?_, ?_⟩
  · intro h
    have hd : cluster_dump env false s
        = .ok { s with storage := StorageContent.yamlDoc (mkDoc s.c) } := by
      show (match s.c.storage_type with
            | StorageType.yaml =>
              Except.ok { s with storage := StorageContent.yamlDoc (mkDoc s.c) }
            | StorageType.json => Except.ok { s with storage := StorageContent.empty }
            | StorageType.pickle => Except.error PyErr.valueError) = _
      rw [h]
    have hl : cluster_load env false { s with storage := StorageContent.yamlDoc (mkDoc s.c) }
        = .ok { s with storage := StorageContent.yamlDoc (mkDoc s.c),
                       c := { s.c with
                              template := s.c.template, name := s.c.name,
                              options := if s.c.options = [] then s.c.options
                                         else s.c.options,
                              nodes := (s.c.nodes.map mkNodeRecord).map
                                loadNodeRecord } } := by
      simp only [cluster_load, h]
      rfl
    refine ⟨_, _, hd, hl, ?_, ?_, ?_, ?_, ?_, ?_⟩
    · exact load_dump_field PNode.id PNode.id (fun n => rfl) s.c.nodes
    · exact load_dump_field PNode.name PNode.name (fun n => rfl) s.c.nodes
    · exact load_dump_field PNode.state PNode.state (fun n => rfl) s.c.nodes
    · exact load_dump_field PNode.public_ips PNode.public_ips (fun n => rfl) s.c.nodes
    · exact load_dump_field PNode.private_ips PNode.private_ips (fun n => rfl) s.c.nodes
    · show (if s.c.options = [] then s.c.options else s.c.options) = s.c.options
      exact ite_self _
  · intro h
    have hd : cluster_dump env false s = .ok { s with storage := StorageContent.empty } := by
      show (match s.c.storage_type with
            | StorageType.yaml =>
              Except.ok { s with storage := StorageContent.yamlDoc (mkDoc s.c) }
            | StorageType.json => Except.ok { s with storage := StorageContent.empty }
            | StorageType.pickle => Except.error PyErr.valueError) = _
      rw [h]
    refine ⟨_, hd, rfl, ?_⟩
    simp only [cluster_load, h]
  · intro h
    show (match s.c.storage_type with
          | StorageType.yaml =>
            Except.ok { s with storage := StorageContent.yamlDoc (mkDoc s.c) }
          | StorageType.json => Except.ok { s with storage := StorageContent.empty }
          | StorageType.pickle => Except.error PyErr.valueError) = _
    rw [h]

def c5wEnv : CloudEnv := fun _ _ => none

def c5wJson : Sys :=
  ⟨⟨str ("t5"), str ("c5"), .json, [], []⟩, [], [], [], .absent, 0⟩

def c5wPickle : Sys :=
  ⟨⟨str ("t5"), str ("c5"), .pickle, [], []⟩, [], [], [], .absent, 0⟩

/-- Witness for C5: at a concrete json-storage cluster the save leaves an
empty file and the load then fails; at a concrete pickle-storage cluster
the save itself fails. -/
theorem C5_save_load_roundtrip_witness :
    (∃ s1, cluster_dump c5wEnv false c5wJson = .ok s1 ∧ s1.storage = .empty
      ∧ cluster_load c5wEnv false s1 = .error PyErr.attributeError)
    ∧ cluster_dump c5wEnv false c5wPickle = .error PyErr.valueError :=
  ⟨(C5_save_load_roundtrip c5wEnv c5wJson).2.1 rfl,
   (C5_save_load_roundtrip c5wEnv c5wPickle).2.2 rfl⟩

/-- Outcome of one ssh.connect attempt (lines 339-346): success, a
socket.error (host unreachable / connection refused), or a
paramiko.SSHException. -/
inductive ConnRes where
  | success
  | sockErr
  | sshExn
  deriving DecidableEq, Repr

/-- Outcome of the per-address loop: connected, an SSHException that escaped
the inner while, or expiry of the per-address deadline. -/
inductive TryOutcome where
  | connected
  | sshfail
  | timedOut
  deriving DecidableEq, Repr

/-- The inner while of lines 336-362 under the per-address timeout guard of
line 335: attempt ssh.connect; on socket.error sleep and retry the same
address (the attempt counter advances, the fuel counts the sleeps the
deadline admits, and its exhaustion is the TimeoutError raised at the
sleep point); an SSHException escapes the while; success leaves it. -/
def tryIp (conn : Str → Nat → ConnRes) (ip : Str) : Nat → Nat → TryOutcome
  | attempt, fuel =>
    match conn ip attempt with
    | .success => .connected
    | .sshExn => .sshfail
    | .sockErr =>
      match fuel with
      | 0 => .timedOut
      | f + 1 => tryIp conn ip (attempt + 1) f

/-- Python dict.get on the options map. -/
def pyGet (d : List (Str × Str)) (k : Str) : Option Str :=
  (d.find? (fun kv => kv.1 == k)).map Prod.snd

/-- Lines 320-322: the ssh port, overridden by a truthy options entry. -/
def ssh_port_of (options : List (Str × Str)) (dflt : Str) : Str :=
  match pyGet options (str ("ssh_port")) with
  | some v => if v = [] then dflt else v
  | none => dflt

/-- Lines 347-356: on a successful connect the server's host keys are added
to the cluster's known-hosts file before the address is returned. -/
def saveHostKeys (hostKey : Str → Str) (ip : Str) (kh : List (Str × Str)) :
    List (Str × Str) :=
  kh ++ [(ip, hostKey ip)]

/-- The address loop of lines 332-365: addresses are tried in list order;
a connect returns (ip, port) after recording the host key; an SSHException
moves on to the next address (line 363); expiry of the per-address
deadline raises TimeoutError, which no handler catches; exhausting the
list returns the (None, None) failure value. -/
def resolveLoop (conn : Str → Nat → ConnRes) (hostKey : Str → Str) (fuel : Nat)
    (port : Str) :
    List Str → List (Str × Str) → Except PyErr (Option (Str × Str) × List (Str × Str))
  | [], kh => .ok (none, kh)
  | ip :: rest, kh =>
    match tryIp conn ip 0 fuel with
    | .connected => .ok (some (ip, port), saveHostKeys hostKey ip kh)
    | .sshfail => resolveLoop conn hostKey fuel port rest kh
    | .timedOut => .error .timeoutError

/-- Cluster.node_ssh_address_and_port (lines 315-365): look the node up by
name (a miss raises NodeNotFound), resolve the port override, and walk
private addresses before public ones. -/
def node_ssh_address_and_port (conn : Str → Nat → ConnRes) (hostKey : Str → Str)
    (fuel : Nat) (nodes : List PNode) (options : List (Str × Str)) (dflt_port : Str)
    (name : Str) (kh : List (Str × Str)) :
    Except PyErr (Option (Str × Str) × List (Str × Str)) :=
  match nodes.find? (fun n => n.name == name) with
  | none => .error .nodeNotFound
  | some node =>
    resolveLoop conn hostKey fuel (ssh_port_of options dflt_port)
      (node.private_ips ++ node.public_ips) kh

/-- An address on which every attempt yields socket.error retries until the
per-address deadline expires. -/
theorem tryIp_sockErr {conn : Str → Nat → ConnRes} {ip : Str}
    (h : ∀ k, conn ip k = .sockErr) : ∀ (f a : Nat), tryIp conn ip a f = .timedOut := by
  intro f
  induction f with
  | zero =>
    intro a
    simp only [tryIp, h]
  | succ f ih =>
    intro a
    simp only [tryIp, h]
    exact ih (a + 1)

/-- C7 (amended): behaviour of SSH endpoint resolution on an address list.
An address that connects at once is returned with the port and its host
key is recorded; an address whose first attempt raises SSHException is
skipped in favour of the rest of the list; an address that keeps raising
socket.error (connection refused) is retried on the spot until the
per-address deadline expires, and the resulting TimeoutError is not
caught, aborting resolution instead of moving to the next address; and
when every address raises SSHException the loop returns the (None, None)
failure value with the known-hosts record untouched. -/
theorem C7_ssh_resolution (conn : Str → Nat → ConnRes) (hostKey : Str → Str)
    (fuel : Nat) (port : Str) (kh : List (Str × Str)) :
    (∀ ip rest, conn ip 0 = .success →
      resolveLoop conn hostKey fuel port (ip :: rest) kh
        = .ok (some (ip, port), kh ++ [(ip, hostKey ip)]))
    ∧ (∀ ip rest, conn ip 0 = .sshExn →
      resolveLoop conn hostKey fuel port (ip :: rest) kh
        = resolveLoop conn hostKey fuel port rest kh)
    ∧ (∀ ip rest, (∀ k, conn ip k = .sockErr) →
      resolveLoop conn hostKey fuel port (ip :: rest) kh = .error PyErr.timeoutError)
    ∧ (∀ ips, (∀ j, j ∈ ips → conn j 0 = .sshExn) →
      resolveLoop conn hostKey fuel port ips kh = .ok (none, kh)) := by
  refine ⟨?_, ?_, ?_, ?_⟩
  · intro ip rest hc
    have ht : tryIp conn ip 0 fuel = .connected := by
      cases fuel <;> simp only [tryIp, hc]
    simp only [resolveLoop, ht, saveHostKeys]
  · intro ip rest hc
    have ht : tryIp conn ip 0 fuel = .sshfail := by
      cases fuel <;> simp only [tryIp, hc]
    simp only [resolveLoop, ht]
  · intro ip rest hc
    have ht : tryIp conn ip 0 fuel = .timedOut := tryIp_sockErr hc fuel 0
    simp only [resolveLoop, ht]
  · intro ips
    induction ips with
    | nil =>
      intro _
      simp only [resolveLoop]
    | cons ip rest ih =>
      intro hall
      have ht : tryIp conn ip 0 fuel = .sshfail := by
        cases fuel <;> simp only [tryIp, hall ip (List.mem_cons_self ip rest)]
      simp only [resolveLoop, ht]
      exact ih (fun j hj => hall j (List.mem_cons_of_mem ip hj))

def c7A : Str := str ("10.0.0.5")

def c7B : Str := str ("172.16.0.5")

def c7key : Str → Str := fun ip => str ("key-") ++ ip

def c7wconn : Str → Nat → ConnRes :=
  fun ip _ => if ip = c7A then .sshExn else .success

/-- Witness for C7: with SSHException on the first address, resolution skips
to the second address, returns it with the port, and records its host
key. -/
theorem C7_ssh_resolution_witness :
    resolveLoop c7wconn c7key 3 (str ("22")) [c7A, c7B] []
      = .ok (some (c7B, str ("22")), [(c7B, c7key c7B)]) := by
  have h := C7_ssh_resolution c7wconn c7key 3 (str ("22")) []
  rw [h.2.1 c7A [c7B] (by rfl)]
  exact h.1 c7B [] (by rfl)

def c7xconn : Str → Nat → ConnRes :=
  fun ip k => if ip = c7B ∧ 1 ≤ k then .success else .sockErr

def c7node : PNode :=
  { id := str ("n7"), name := str ("n7"), state := .running,
    public_ips := [c7B], private_ips := [c7A] }

/-- C7, counterexample to the claimed scenario: address list [A, B] where A
refuses connection (socket.error) on every attempt and B succeeds after
one retry.  The claim expects (B, port); the code retries A until the
per-address deadline expires and the uncaught TimeoutError aborts
resolution, so B is never tried and no host key is recorded. -/
theorem C7_counterexample :
    node_ssh_address_and_port c7xconn c7key 4 [c7node] [] (str ("22")) (str ("n7")) []
      = .error PyErr.timeoutError := by rfl

/-- Python dict assignment d[k] = v: replace the value when the key is
present, append the binding otherwise. -/
def dictSet (d : List (Str × Str)) (k v : Str) : List (Str × Str) :=
  if (d.map Prod.fst).contains k then
    d.map (fun kv => if kv.1 == k then (kv.1, v) else kv)
  else d ++ [(k, v)]

/-- Python dict.pop(k): the value and the dict without the key, or KeyError
when the key is absent. -/
def popKey (opts : List (Str × Str)) (k : Str) : Except PyErr (Str × List (Str × Str)) :=
  match opts.find? (fun kv => kv.1 == k) with
  | none => .error .keyError
  | some kv => .ok (kv.2, opts.eraseP (fun x => x.1 == k))

/-- One prefix of the inner loop of configure (lines 280-285): when the key
starts with the prefix, bind key.replace(prefix, '') to the value in the
group's environment and pop the key from local_options. -/
def prefixStep (p k v : Str) (st : List (Str × Str) × List (Str × Str)) :
    Except PyErr (List (Str × Str) × List (Str × Str)) :=
  if pyStarts p k then
    match popKey st.2 k with
    | .error e => .error e
    | .ok r => .ok (dictSet st.1 (pyReplaceEmpty p k) v, r.2)
  else .ok st

/-- The key loop of configure for one group (lines 279-285): iterate over
the items() snapshot of local_options taken at loop entry (Python 2
returns a list, so the pops do not disturb the iteration), trying the
group prefix and then the global prefix on each key.  The state is the
group's environment so far paired with the current local_options. -/
def scanEntries (g : Str) : List (Str × Str) → List (Str × Str) × List (Str × Str) →
    Except PyErr (List (Str × Str) × List (Str × Str))
  | [], st => .ok st
  | (k, v) :: rest, st =>
    match prefixStep (g ++ str ("_var_")) k v st with
    | .error e => .error e
    | .ok st1 =>
      match prefixStep (str ("global_var_")) k v st1 with
      | .error e => .error e
      | .ok st2 => scanEntries g rest st2

/-- The group loop of configure (lines 277-285): each group scans the
local_options left over by its predecessors and accumulates its
environment map. -/
def groupsLoop : List Str → List (Str × Str) → List (Str × List (Str × Str)) →
    Except PyErr (List (Str × List (Str × Str)) × List (Str × Str))
  | [], opts, envs => .ok (envs, opts)
  | g :: gs, opts, envs =>
    match scanEntries g opts ([], opts) with
    | .error e => .error e
    | .ok st => groupsLoop gs st.2 (envs ++ [(g, st.1)])

/-- Cluster.configure (lines 266-300): build the per-group environment maps
from the setup options, pop playbook_path (KeyError when absent), hand
environment maps, playbook path and the remaining options to the
configuration-management collaborator, and return its boolean verbatim. -/
def configure (setup : List (Str × List (Str × Str)) → Str → List (Str × Str) → Bool)
    (node_types : List Str) (options : List (Str × Str)) : Except PyErr Bool :=
  match groupsLoop node_types options [] with
  | .error e => .error e
  | .ok r =>
    match popKey r.2 (str ("playbook_path")) with
    | .error e => .error e
    | .ok pb => .ok (setup r.1 pb.1 pb.2)

/-- C9 (amended): on a representative options map holding one variable for
each of the groups g and h, one global variable and the playbook path
(values and collaborator arbitrary), configure delivers g_var_a to g and
h_var_b to h, delivers the global variable global_var_c only to g — the
first group to scan it pops it from local_options, so it never reaches h —
pops the playbook path, and returns the collaborator's boolean unchanged;
and in general, whenever the group loop and the playbook pop succeed,
configure returns exactly the collaborator's boolean on the computed
environment maps. -/
theorem C9_configure
    (setup : List (Str × List (Str × Str)) → Str → List (Str × Str) → Bool)
    (v1 v2 v3 p : Str) :
    configure setup [str ("g"), str ("h")]
      [(str ("g_var_a"), v1), (str ("h_var_b"), v2), (str ("global_var_c"), v3),
       (str ("playbook_path"), p)]
      = .ok (setup
          [(str ("g"), [(str ("a"), v1), (str ("c"), v3)]),
           (str ("h"), [(str ("b"), v2)])]
          p [])
    ∧ (∀ nts opts envs o pb rest,
        groupsLoop nts opts [] = .ok (envs, o) →
        popKey o (str ("playbook_path")) = .ok (pb, rest) →
        configure setup nts opts = .ok (setup envs pb rest)) := by
  constructor
  · rfl
  · intro nts opts envs o pb rest h1 h2
    simp only [configure, h1, h2]

def c9wsetup : List (Str × List (Str × Str)) → Str → List (Str × Str) → Bool :=
  fun _ _ _ => true

/-- Witness for C9: the general passthrough conjunct at a concrete options
map. -/
theorem C9_configure_witness :
    configure c9wsetup [str ("g")] [(str ("playbook_path"), str ("pb"))]
      = .ok (c9wsetup [(str ("g"), [])] (str ("pb")) []) :=
  (C9_configure c9wsetup (str ("x")) (str ("x")) (str ("x")) (str ("x"))).2
    [str ("g")] [(str ("playbook_path"), str ("pb"))]
    [(str ("g"), [])] [(str ("playbook_path"), str ("pb"))] (str ("pb")) []
    rfl rfl

/-- C9, counterexample to "global variables reach all groups": with groups
[a, b] and a single global_var_x option, group a's scan pops the key, so
group b's environment is empty. -/
theorem C9_counterexample :
    groupsLoop [str ("a"), str ("b")]
      [(str ("global_var_x"), str ("1")), (str ("playbook_path"), str ("pb"))] []
      = .ok ([(str ("a"), [(str ("x"), str ("1"))]), (str ("b"), [])],
             [(str ("playbook_path"), str ("pb"))]) := by rfl

/-- Heap of Python list objects: a reference names a list, and next is the
next fresh reference.  Reference classNodesRef is the single list object
created when the class body of Cluster is evaluated, the one the class
attribute nodes of line 43 holds forever. -/
structure PyState where
  heap : Nat → List PNode
  next : Nat

def classNodesRef : Nat := 0

/-- A Cluster object as far as its nodes attribute is concerned: the
instance dict either has no nodes entry — attribute lookup then falls
through to the class attribute — or holds a list reference of its own. -/
structure ClusterObj where
  nodes_ref : Option Nat

/-- Python attribute lookup for self.nodes: the instance dict first, the
class attribute otherwise. -/
def lookupNodes (o : ClusterObj) : Nat :=
  o.nodes_ref.getD classNodesRef

/-- Cluster.__init__ (lines 51-71): when a storage file exists, __load runs
and its self.nodes = [] (line 127) creates an instance attribute bound to
a fresh list filled from the file; when no storage file exists, nothing in
__init__ assigns self.nodes, so lookups keep resolving to the class-level
list. -/
def cluster_init (storage : Option (List PNode)) (st : PyState) : ClusterObj × PyState :=
  match storage with
  | none => ({ nodes_ref := none }, st)
  | some loaded =>
    ({ nodes_ref := some st.next },
     { heap := fun i => if i = st.next then loaded else st.heap i,
       next := st.next + 1 })

/-- self.nodes.append(...) as Cluster.add performs on line 220: mutate the
list object that attribute lookup resolves to. -/
def add_append (o : ClusterObj) (n : PNode) (st : PyState) : PyState :=
  { st with heap := fun i => if i = lookupNodes o then st.heap i ++ [n] else st.heap i }

/-- Read self.nodes. -/
def readNodes (o : ClusterObj) (st : PyState) : List PNode :=
  st.heap (lookupNodes o)

/-- The pristine interpreter state: the class attribute list is empty and
reference 0 is taken by it. -/
def pyInit : PyState := { heap := fun _ => [], next := 1 }

/-- A cluster constructed from a storage file owns a fresh list: appending
through it leaves the list another cluster resolves to untouched (the
allocator hands out references above the class list's). -/
theorem cluster_init_storage_owns (st : PyState) (l : List PNode) (m : PNode)
    (h : 0 < st.next) :
    readNodes { nodes_ref := none }
      (add_append (cluster_init (some l) st).1 m (cluster_init (some l) st).2)
      = readNodes { nodes_ref := none } st := by
  have hne : classNodesRef ≠ st.next := by
    show (0 : Nat) ≠ st.next
    omega
  show (if classNodesRef = st.next then
          (if classNodesRef = st.next then l else st.heap classNodesRef) ++ [m]
        else if classNodesRef = st.next then l else st.heap classNodesRef)
      = st.heap classNodesRef
  rw [if_neg hne, if_neg hne]

/-- C10: a Cluster constructed when no storage file exists never binds an
instance-level nodes attribute, so its inventory is the class-level shared
list: for two such clusters, a node appended through the first (as add
does) is observed in the second's inventory, and a third cluster
constructed afterwards starts with that node already present rather than
with zero nodes. -/
theorem C10_shared_class_nodes (st : PyState) (n : PNode) :
    (cluster_init none st).1.nodes_ref = none
    ∧ readNodes (cluster_init none ((cluster_init none st).2)).1
        (add_append (cluster_init none st).1 n
          ((cluster_init none ((cluster_init none st).2)).2))
      = readNodes (cluster_init none ((cluster_init none st).2)).1
          ((cluster_init none ((cluster_init none st).2)).2) ++ [n]
    ∧ readNodes
        (cluster_init none
          (add_append (cluster_init none st).1 n
            ((cluster_init none ((cluster_init none st).2)).2))).1
        (cluster_init none
          (add_append (cluster_init none st).1 n
            ((cluster_init none ((cluster_init none st).2)).2))).2
      = readNodes (cluster_init none st).1 st ++ [n] :=
  ⟨rfl, rfl, rfl⟩

end Elasticluster
